import Mathlib

/-
Shallow embedding of the structured query engine of the Sales-Analytics-AI-assistant
repository (src/utils/tools.py and src/utils/aliases.py), together with proofs that
settle the frozen claims about it.

Modelling conventions, used throughout:
* A pandas cell value is a dynamic `Value`: string, rational number (Python int/float;
  IEEE doubles are modelled by exact rationals, see the comment on `_overlap_months`
  for the one place where a float division feeds a ceiling), date (as a count of civil
  days since 1970-01-01), bool, `null` (Python `None` / pandas `NaT` stored as object
  `None`), and `nan` (float NaN and pandas `NaT`, which compare false against
  everything without raising).
* A pandas `DataFrame` is a `Table`: an ordered list of column names, a list of rows
  (each row a total function from column name to `Value`; only names listed in `cols`
  are meaningful), and the list of columns whose dtype is numeric (pandas dtype
  metadata, consulted by `pandas.api.types.is_numeric_dtype` in the source).
* Python statements that can raise are embedded in `Except String`; a `.error` value
  models an uncaught Python exception.
* `pd.to_datetime(x, errors="coerce")` is modelled for ISO `YYYY-MM-DD` strings,
  date values, integers-as-epoch-nanoseconds, and missing values; other string
  formats that pandas would parse are out of scope of the claims and parse to NaT.
* Python `float(s)` / `int(s)` are modelled for plain decimal literals (optional
  sign, digits, one optional decimal point), which covers every value the claims
  mention; exponent forms are out of scope and parse as failures.
-/

namespace SalesQA

/-
Kernel-computable arithmetic and string utilities.  The standard `Rat`
arithmetic normalizes through `Nat.gcd`, and several `String` functions use
iterator loops; both are defined by well-founded recursion, which the kernel
cannot reduce, so concrete executions could not be certified by `decide`.
The utilities below compute the same functions by structural recursion
(the gcd carries explicit fuel) and are proved equal to the standard ones
where the claim statements mention the standard forms.
-/

/-- Euclid's algorithm with explicit fuel; the fuel only needs to exceed the
first argument. -/
def gcdF : ℕ → ℕ → ℕ → ℕ
  | 0, _, n => n
  | _ + 1, 0, n => n
  | f + 1, m + 1, n => gcdF f (n % (m + 1)) (m + 1)

/-- Kernel-computable greatest common divisor. -/
def kgcd (m n : ℕ) : ℕ := gcdF (m + 1) m n

/-- The fuel suffices as soon as it exceeds the first argument (a proof term,
kept as a definition so the construction of `qMk` below can use it). -/
def kgcd_key : ∀ f m n : ℕ, m < f → gcdF f m n = Nat.gcd m n := by
  intro f
  induction f with
  | zero => intro m n h; exact absurd h (Nat.not_lt_zero m)
  | succ f ih =>
    intro m n hm
    match m with
    | 0 => exact (Nat.gcd_zero_left n).symm
    | m + 1 =>
      show gcdF f (n % (m + 1)) (m + 1) = Nat.gcd (m + 1) n
      rw [Nat.gcd_succ]
      exact ih _ _ (lt_of_lt_of_le (Nat.mod_lt _ (Nat.succ_pos m)) (by omega))

/-- Build the reduced rational `n / d` by structural recursion (`0` when `d = 0`,
matching the field convention that division by zero is zero). -/
def qMk (n d : ℤ) : ℚ :=
  if hd : d = 0 then 0
  else
    let n' := if d < 0 then -n else n
    let na := n'.natAbs
    let da := d.natAbs
    let g := kgcd na da
    have hg : g = Nat.gcd na da := kgcd_key _ _ _ (Nat.lt_succ_self na)
    have hda : 0 < da := Int.natAbs_pos.mpr hd
    have hgpos : 0 < g := by rw [hg]; exact Nat.gcd_pos_of_pos_right na hda
    have hden : da / g ≠ 0 := by
      have : 0 < da / g :=
        Nat.div_pos (Nat.le_of_dvd hda (hg ▸ Nat.gcd_dvd_right na da)) hgpos
      omega
    have hcop : (na / g).Coprime (da / g) := by
      rw [hg]
      exact Nat.coprime_div_gcd_div_gcd (hg ▸ hgpos)
    if hs : 0 ≤ n' then
      ⟨((na / g : ℕ) : ℤ), da / g, hden, by simpa using hcop⟩
    else
      ⟨-((na / g : ℕ) : ℤ), da / g, hden, by simpa using hcop⟩

/-- Kernel-computable rational addition (equal to `+` on `ℚ`, proved below). -/
def qAdd (a b : ℚ) : ℚ := qMk (a.num * b.den + b.num * a.den) (a.den * b.den)

/-- Kernel-computable rational multiplication. -/
def qMul (a b : ℚ) : ℚ := qMk (a.num * b.num) (a.den * b.den)

/-- Kernel-computable rational division (zero when the divisor is zero). -/
def qDiv (a b : ℚ) : ℚ := qMk (a.num * b.den) (a.den * b.num)

/-- The constant 30.4 (the month length the source divides by). -/
def q30four : ℚ := qMk 304 10

/-- Lower-case a string character by character. -/
def lowerStr (s : String) : String := ⟨s.data.map Char.toLower⟩

/-- ASCII whitespace as stripped by Python `str.strip()`. -/
def isSpaceChar (c : Char) : Bool :=
  decide (c = ' ') || decide (c = '\t') || decide (c = '\n') || decide (c = '\r')

/-- Python `str.strip()` by structural recursion. -/
def trimStr (s : String) : String :=
  ⟨((s.data.dropWhile isSpaceChar).reverse.dropWhile isSpaceChar).reverse⟩

/-- Split a character list on a separator character. -/
def splitOnChar (c : Char) : List Char → List (List Char)
  | [] => [[]]
  | a :: l =>
    match splitOnChar c l, decide (a = c) with
    | r, true => [] :: r
    | h :: t, false => (a :: h) :: t
    | [], false => [[a]]

/-- Lexicographic comparison of character lists by code point (Python string
ordering). -/
def charListLe : List Char → List Char → Bool
  | [], _ => true
  | _ :: _, [] => false
  | a :: s, b :: t => if a = b then charListLe s t else decide (a < b)

/-- Prefix test on character lists. -/
def listPrefix : List Char → List Char → Bool
  | [], _ => true
  | _ :: _, [] => false
  | a :: p, b :: s => decide (a = b) && listPrefix p s

/-- Occurrence test (`pat in s`) on character lists. -/
def listContains (s pat : List Char) : Bool :=
  match s with
  | [] => decide (pat = [])
  | _ :: t => listPrefix pat s || listContains t pat

/-- Python `s.endswith(pat)`. -/
def endsWithStr (s pat : String) : Bool := listPrefix pat.data.reverse s.data.reverse

/-- Drop the final character (`s[:-1]`). -/
def dropLastStr (s : String) : String := ⟨s.data.dropLast⟩

/-- Head-character test (used for sign handling). -/
def headIs (s : String) (c : Char) : Bool :=
  match s.data with
  | [] => false
  | a :: _ => decide (a = c)

/-- Drop the first character. -/
def tailStr (s : String) : String := ⟨s.data.tail⟩

/-- Dynamic value held by one cell of a table, one filter value, or one descriptor
field.  `null` models Python `None`; `nan` models float NaN and pandas `NaT`. -/
inductive Value where
  | str (s : String)
  | num (q : ℚ)
  | date (d : ℤ)
  | bool (b : Bool)
  | null
  | nan
deriving DecidableEq, Repr

/-- pandas `isna`: `None`, NaN and NaT are the missing values. -/
def isNA : Value → Bool
  | .null => true
  | .nan => true
  | _ => false

/-- Python truthiness of a value (`bool(x)`): None and zero and the empty string are
falsy; NaN is truthy. -/
def pyTruthy : Value → Bool
  | .null => false
  | .num q => q ≠ 0
  | .str s => s ≠ ""
  | .bool b => b
  | .date _ => true
  | .nan => true

/-- Days from civil date to the 1970-01-01 epoch (standard civil-days algorithm).
All intermediate divisions have non-negative operands, so the rounding mode of
integer division does not matter. -/
def daysFromCivil (y m d : ℤ) : ℤ :=
  let y2 := if m ≤ 2 then y - 1 else y
  let era := (if 0 ≤ y2 then y2 else y2 - 399) / 400
  let yoe := y2 - era * 400
  let mp := (m + 9) % 12
  let doy := (153 * mp + 2) / 5 + d - 1
  let doe := yoe * 365 + yoe / 4 - yoe / 100 + doy
  era * 146097 + doe - 719468

/-- Gregorian leap-year test. -/
def isLeap (y : ℤ) : Bool := (y % 4 = 0 && y % 100 ≠ 0) || y % 400 = 0

/-- Number of days of month `m` of year `y`. -/
def daysInMonth (y m : ℤ) : ℤ :=
  if m = 2 then (if isLeap y then 29 else 28)
  else if m = 4 ∨ m = 6 ∨ m = 9 ∨ m = 11 then 30
  else 31

/-- Parse a non-empty all-digit character list to a natural number. -/
def parseNatDigits (l : List Char) : Option ℕ :=
  if l = [] ∨ ¬ l.all Char.isDigit then none
  else some (l.foldl (fun a c => a * 10 + (c.toNat - 48)) 0)

/-- Parse an ISO `YYYY-MM-DD` date string to an epoch day count; invalid components
give `none` (pandas `errors="coerce"` would give NaT). -/
def parseYMD (s : String) : Option ℤ :=
  match splitOnChar (Char.ofNat 45) s.data with
  | [ys, ms, ds] =>
    if ys.length = 4 ∧ ms.length = 2 ∧ ds.length = 2 then
      match parseNatDigits ys, parseNatDigits ms, parseNatDigits ds with
      | some y, some m, some d =>
        if 1 ≤ m ∧ m ≤ 12 ∧ 1 ≤ d ∧ (d : ℤ) ≤ daysInMonth (y : ℤ) (m : ℤ) then
          some (daysFromCivil (y : ℤ) (m : ℤ) (d : ℤ))
        else none
      | _, _, _ => none
    else none
  | _ => none

/-- Python `float(s)` on a plain decimal literal: optional sign, digits with at most
one decimal point, at least one digit. -/
def pyFloatCore (l : List Char) : Option ℚ :=
  match splitOnChar (Char.ofNat 46) l with
  | [ip] => (parseNatDigits ip).map (fun n => ((n : ℤ) : ℚ))
  | [ip, fp] =>
    if ip = [] ∧ fp = [] then none
    else
      match (if ip = [] then some 0 else parseNatDigits ip),
            (if fp = [] then some 0 else parseNatDigits fp) with
      | some a, some b => some (qMk ((a * 10 ^ fp.length + b : ℕ) : ℤ) ((10 ^ fp.length : ℕ) : ℤ))
      | _, _ => none
  | _ => none

/-- Python `float(s)` with whitespace stripping and sign handling, returning
`none` where Python raises. -/
def pyFloat? (s : String) : Option ℚ :=
  let t := trimStr s
  if headIs t (Char.ofNat 45) then (pyFloatCore (tailStr t).data).map (fun q => -q)
  else if headIs t (Char.ofNat 43) then pyFloatCore (tailStr t).data
  else pyFloatCore t.data

/-- Python `int(s)`: optional sign and digits only (no decimal point). -/
def pyIntStr? (s : String) : Option ℤ :=
  let t := trimStr s
  if headIs t (Char.ofNat 45) then (parseNatDigits (tailStr t).data).map (fun n => -(n : ℤ))
  else if headIs t (Char.ofNat 43) then (parseNatDigits (tailStr t).data).map (fun n => (n : ℤ))
  else (parseNatDigits t.data).map (fun n => (n : ℤ))

/-- Python `int(x)` on a dynamic value: floats truncate toward zero (t-division
of the reduced numerator by the denominator), bools become 0/1, numeric strings
parse, everything else raises. -/
def pyInt : Value → Except String ℤ
  | .num q => .ok (q.num.tdiv (q.den : ℤ))
  | .bool b => .ok (if b then 1 else 0)
  | .str s =>
    match pyIntStr? s with
    | some n => .ok n
    | none => .error "invalid literal for int()"
  | .nan => .error "cannot convert float NaN to integer"
  | .null => .error "int() argument must not be None"
  | .date _ => .error "int() argument must not be a date"

/-- The `_to_pydate` helper of src/utils/tools.py: missing values give `None`,
dates pass through, strings go through `pd.to_datetime(..., errors="coerce")`
(modelled for ISO dates), numbers are nanosecond epoch timestamps. -/
def _to_pydate : Value → Option ℤ
  | .null => none
  | .nan => none
  | .date d => some d
  | .str s => parseYMD s
  | .num q => some ⌊qDiv q (86400000000000 : ℚ)⌋
  | .bool _ => none

/-- The `_overlap_months` helper of src/utils/tools.py.  The source computes
`int(np.ceil(((b - a).days + 1) / 30.4))` in IEEE double arithmetic; the double
result of `n / 30.4` has the same ceiling as the exact rational `n / 30.4` for
every `n` up to at least twenty million days (checked exhaustively), so the
embedding uses the exact rational ceiling. -/
def _overlap_months (cs ce ws we : Option ℤ) : ℤ :=
  match cs, ce, ws, we with
  | some c1, some c2, some w1, some w2 =>
    let a := max c1 w1
    let b := min c2 w2
    if b < a then 0 else ⌈qDiv ((b - a + 1 : ℤ) : ℚ) q30four⌉
  | _, _, _, _ => 0

/-- Round half-to-even to an integer (numpy / pandas `.round` semantics), phrased
on the reduced numerator and denominator: the fractional part `q - ⌊q⌋` is
compared against one half by comparing twice its numerator with the
denominator. -/
def roundHalfEven (q : ℚ) : ℤ :=
  let f := ⌊q⌋
  let rem2 := 2 * (q.num - f * (q.den : ℤ))
  if rem2 < (q.den : ℤ) then f
  else if (q.den : ℤ) < rem2 then f + 1
  else if f % 2 = 0 then f else f + 1

/-- pandas `.round(2)`: round half-to-even at two decimal places. -/
def roundTo2 (q : ℚ) : ℚ := qMk (roundHalfEven (qMul q 100)) 100

/-- A column reference as it may arrive from the caller: a plain string, a
structured descriptor (a dict with `col` / `name` / `field` / `column` / `expr`
keys, each possibly holding a non-string), or Python `None`.  `str(dict)` never
equals a column or alias name, which is all `_fix_filters` needs of it. -/
inductive ColRef where
  | str (s : String)
  | dict (col nm field column expr : Option Value)
  | pynone
deriving DecidableEq, Repr

/-- Substring test (`pat in s` for a non-empty Python pattern). -/
def strContains (s pat : String) : Bool := listContains s.data pat.data

/-- One key of the `_as_col_name` dict probe: accepted when it holds a string with
non-blank strip. -/
def strField (v : Option Value) : Option String :=
  match v with
  | some (.str s) => if trimStr s ≠ "" then some (trimStr s) else Option.none
  | _ => Option.none

/-- The `_as_col_name` helper of src/utils/aliases.py. -/
def _as_col_name : ColRef → Option String
  | .str s => some (trimStr s)
  | .dict col nm field column expr =>
    (strField col).orElse fun _ => (strField nm).orElse fun _ =>
      (strField field).orElse fun _ => (strField column).orElse fun _ =>
        match expr with
        | some (.str e) =>
          if strContains e "period_revenue_usd" then some "period_revenue_usd"
          else if strContains e "mrr_usd" then some "mrr_usd"
          else Option.none
        | _ => Option.none
  | .pynone => Option.none

/-- The COLUMN_ALIASES table of src/utils/aliases.py, in source order. -/
def COLUMN_ALIASES : List (String × String) :=
  [("customer_name", "company_name"), ("client_name", "company_name"),
   ("account_name", "company_name"), ("company", "company_name"),
   ("customer", "company_name"), ("client", "company_name"), ("name", "company_name"),
   ("revenue", "period_revenue_usd"), ("total_revenue", "period_revenue_usd"),
   ("revenue_usd", "period_revenue_usd"), ("period_revenue", "period_revenue_usd"),
   ("mrr", "mrr_usd"), ("arr", "mrr_usd"),
   ("start_date", "contract_start"), ("end_date", "contract_end"),
   ("contract_start_date", "contract_start"), ("contract_end_date", "contract_end"),
   ("is_churn", "churn"), ("churn_flag", "churn"),
   ("churn_probability", "churn_probability_percent"),
   ("churn_prob", "churn_probability_percent"),
   ("churn_risk", "churn_probability_percent"),
   ("probability_of_churn", "churn_probability_percent"),
   ("services_used", "services_used_count"), ("service_count", "services_used_count"),
   ("num_services", "services_used_count"), ("number_of_services", "services_used_count"),
   ("feedback_text", "feedback"), ("customer_feedback", "feedback"),
   ("notes", "feedback")]

/-- Columns allowed to resolve before they exist (computed later). -/
def VIRTUAL_COLS : List String := ["period_revenue_usd"]

/-- Dictionary lookup in the alias table. -/
def aliasLookup (n : String) : Option String :=
  (COLUMN_ALIASES.find? (fun p => p.1 = n)).map (fun p => p.2)

/-- The `resolve_col` function of src/utils/aliases.py: exact schema or virtual
name first, then a lower-cased alias lookup whose target must be in schema or
virtual; unresolvable references give `none`. -/
def resolve_col (c : ColRef) (schema : List String) : Option String :=
  match _as_col_name c with
  | Option.none => Option.none
  | some name =>
    if name = "" then Option.none
    else if name ∈ schema ∨ name ∈ VIRTUAL_COLS then some name
    else
      match aliasLookup (lowerStr name) with
      | some mapped =>
        if mapped ∈ schema ∨ mapped ∈ VIRTUAL_COLS then some mapped else Option.none
      | Option.none => Option.none

/-- List resolution with first-seen de-duplication: `_fix_list` of
src/utils/aliases.py, and also the inline select / group_by loops of
`tool_query` (src/utils/tools.py lines 125-132 and 143-147). -/
def _fix_list (cols : List ColRef) (schema : List String) : List String :=
  cols.foldl
    (fun out c =>
      match resolve_col c schema with
      | some rc => if rc ∈ out then out else out ++ [rc]
      | Option.none => out) []

/-- A filter value: a scalar, a sequence, or a dict with start / end keys. -/
inductive FVal where
  | scalar (v : Value)
  | list (vs : List Value)
  | range (rstart rend : Option Value)
deriving DecidableEq, Repr

/-- One filter descriptor `\x7bcol, op, value\x7d`. -/
structure Filter where
  col : ColRef := ColRef.pynone
  op : Option String := Option.none
  value : FVal := FVal.scalar Value.null
deriving DecidableEq, Repr

/-- The `(f.get(\"op\") or \"==\").strip()` idiom: missing or empty operator
defaults to equality, otherwise the operator is stripped. -/
def opOrDefault (op : Option String) : String :=
  match op with
  | some s => if s = "" then "==" else trimStr s
  | Option.none => "=="

/-- The `_parse_percentish` helper of src/utils/aliases.py on a scalar: numbers
(and bools, which are ints in Python) pass through; strings optionally drop a
trailing percent sign and parse as floats. -/
def _parse_percentish : Value → Option ℚ × Bool
  | .num q => (some q, false)
  | .bool b => (some (if b then 1 else 0), false)
  | .str s =>
    let t := trimStr s
    if endsWithStr t "%" then (pyFloat? (dropLastStr t), true)
    else (pyFloat? t, false)
  | _ => (Option.none, false)

/-- `_parse_percentish` on a raw filter value: non-scalar shapes fail the
isinstance tests and parse to nothing. -/
def parsePercentishF : FVal → Option ℚ × Bool
  | .scalar v => _parse_percentish v
  | _ => (Option.none, false)

/-- Python `str(raw_col or "")` as used by `_fix_filters` for references that
`_as_col_name` rejects; the repr of a dict is never a column or alias name. -/
def pyStrColRef : ColRef → String
  | .str s => s
  | .dict _ _ _ _ _ => "dict-repr"
  | .pynone => ""

/-- The `_fix_filters` sanitization pass of src/utils/aliases.py, including the
smart churn disambiguation: a reference mapping to the bare name churn whose
value parses to a number above 1 is re-mapped to churn_probability_percent. -/
def _fix_filters (filters : List Filter) (schema : List String) : List Filter :=
  filters.foldl
    (fun out f =>
      let op := opOrDefault f.op
      let name := (_as_col_name f.col).getD (pyStrColRef f.col)
      let mapped0 := (aliasLookup (lowerStr name)).getD name
      let mapped :=
        if lowerStr mapped0 = "churn" then
          match (parsePercentishF f.value).1 with
          | some n => if 1 < n then "churn_probability_percent" else mapped0
          | Option.none => mapped0
        else mapped0
      match (resolve_col (.str mapped) schema).orElse
          (fun _ => if mapped ∈ VIRTUAL_COLS then some mapped else Option.none) with
      | some col => out ++ [{ col := .str col, op := some op, value := f.value }]
      | Option.none => out) []

/-- Total boolean order on cell values used to model sorting and `max`: values
are ranked by type (numbers and bools by numeric value, then strings, then
dates); missing values never reach it because sorting segregates them first.
pandas would raise on sorting a mixed-type object column, so on homogeneous
columns this agrees with the source. -/
def leB (v w : Value) : Bool :=
  match v, w with
  | .num a, .num b => decide (a ≤ b)
  | .num a, .bool b => decide (a ≤ (if b then 1 else 0))
  | .bool a, .num b => decide ((if a then (1 : ℚ) else 0) ≤ b)
  | .bool a, .bool b => decide ((if a then (1 : ℚ) else 0) ≤ (if b then 1 else 0))
  | .num _, _ => true
  | .bool _, _ => true
  | .str _, .num _ => false
  | .str _, .bool _ => false
  | .str a, .str b => charListLe a.data b.data
  | .str _, _ => true
  | .date _, .num _ => false
  | .date _, .bool _ => false
  | .date _, .str _ => false
  | .date a, .date b => decide (a ≤ b)
  | .date _, _ => true
  | .null, .num _ => false
  | .null, .bool _ => false
  | .null, .str _ => false
  | .null, .date _ => false
  | .null, _ => true
  | .nan, .num _ => false
  | .nan, .bool _ => false
  | .nan, .str _ => false
  | .nan, .date _ => false
  | .nan, _ => true

/-- A row of a table: a total valuation of column names; only the names listed in
the table's `cols` are meaningful. -/
abbrev Row := String → Value

/-- A pandas DataFrame: ordered column names, rows, and the set of columns whose
dtype is numeric (consulted by `pandas.api.types.is_numeric_dtype`). -/
structure Table where
  cols : List String
  rows : List Row
  numCols : List String

/-- The DATE_COLS constant of src/utils/tools.py. -/
def DATE_COLS_L : List String := ["signup_date", "contract_start", "contract_end"]

/-- The `_is_date_col` helper of src/utils/tools.py. -/
def _is_date_col (c : String) : Bool := decide (c ∈ DATE_COLS_L) || endsWithStr c "_date"

/-- `pd.to_numeric(v, errors="coerce")` on a scalar: numbers and bools convert,
numeric strings parse, everything else coerces to NaN. -/
def to_numeric (v : Value) : Value :=
  match v with
  | .num q => .num q
  | .bool b => .num (if b then 1 else 0)
  | .str s => match pyFloat? s with | some q => .num q | Option.none => .nan
  | _ => .nan

/-- The `_coerce_scalar_for_series` helper of src/utils/tools.py: date-named
columns coerce through `_to_pydate` (unparseable gives None), numeric-dtype
columns through `pd.to_numeric(..., errors="coerce")`, others pass through. -/
def _coerce_scalar_for_series (v : Value) (colNumeric : Bool) (col : String) : Value :=
  if _is_date_col col then
    match _to_pydate v with | some d => .date d | Option.none => .null
  else if colNumeric then to_numeric v
  else v

/-- Three-way comparison of rationals. -/
def cmpQ (a b : ℚ) : Ordering :=
  if a < b then .lt else if a = b then .eq else .gt

/-- Three-way comparison of integers. -/
def cmpZ (a b : ℤ) : Ordering :=
  if a < b then .lt else if a = b then .eq else .gt

/-- Three-way lexicographic comparison of character lists (Python string
ordering by code point). -/
def cmpCL : List Char → List Char → Ordering
  | [], [] => .eq
  | [], _ :: _ => .lt
  | _ :: _, [] => .gt
  | a :: s, b :: t => if a = b then cmpCL s t else if a < b then .lt else .gt

/-- Elementwise Python ordering comparison of a cell against a coerced scalar:
`test` reads off the comparison outcome.  NaN and NaT compare false without
raising; `None` on either side raises TypeError (modelled as `.error`), as
does an order comparison between incompatible types. -/
def pyCompare (x y : Value) (test : Ordering → Bool) : Except String Bool :=
  if x = .null ∨ y = .null then .error "TypeError: comparison with None"
  else if x = .nan ∨ y = .nan then .ok false
  else
    match x, y with
    | .num a, .num b => .ok (test (cmpQ a b))
    | .num a, .bool b => .ok (test (cmpQ a (if b then 1 else 0)))
    | .bool a, .num b => .ok (test (cmpQ (if a then 1 else 0) b))
    | .bool a, .bool b => .ok (test (cmpQ (if a then 1 else 0) (if b then 1 else 0)))
    | .str a, .str b => .ok (test (cmpCL a.data b.data))
    | .date a, .date b => .ok (test (cmpZ a b))
    | _, _ => .error "TypeError: unorderable types"

/-- Elementwise Python equality of a cell against a coerced scalar: never raises;
NaN equals nothing; None equals None; mismatched types are unequal. -/
def pyEqB (x y : Value) : Bool :=
  if x = .nan ∨ y = .nan then false
  else
    match x, y with
    | .num a, .bool b => decide (a = (if b then 1 else 0))
    | .bool a, .num b => decide ((if a then (1 : ℚ) else 0) = b)
    | _, _ => decide (x = y)

/-- Python `str()` of a cell for the `contains` filter (`astype(str)`); the exact
formatting of non-string cells is not relied upon by any claim. -/
def pyStrOfValue : Value → String
  | .str s => s
  | .num q => toString q
  | .bool b => if b then "True" else "False"
  | .date d => toString d
  | .null => "None"
  | .nan => "nan"

/-- Case-insensitive substring containment, modelling
`.str.contains(pat, case=False)` for patterns without regex metacharacters
(the source passes the pattern to a regex engine; the claims only use literal
patterns). -/
def containsCI (s pat : String) : Bool := strContains (lowerStr s) (lowerStr pat)

/-- Monadic filtering over `Except`: keeps the elements whose test returns true,
propagating a raised error. -/
def exFilter (p : α → Except String Bool) : List α → Except String (List α)
  | [] => .ok []
  | a :: l => do
    let b ← p a
    let r ← exFilter p l
    .ok (if b then a :: r else r)

/-- Membership for the `in` operator (`Series.isin`): hash-based equality, with
missing values matching missing values. -/
def isinMatch (cell : Value) (vals : List Value) : Bool :=
  vals.any (fun v => pyEqB cell v || (isNA cell && isNA v))

/-- The nine operator names `_apply_filters` dispatches on. -/
def KNOWN_OPS : List String :=
  ["==", "!=", ">", "<", ">=", "<=", "in", "between", "contains"]

/-- The scalar used by the coerced-comparison chain: `f.get("value")` (non-scalar
shapes reach the chain as themselves; only their coercion result matters and a
sequence or dict coerces like an unparseable value). -/
def chainScalar : FVal → Value
  | .scalar v => v
  | _ => Value.null

/-- The operator dispatch of the `_apply_filters` loop body, acting on the row
list (every branch of the source assigns a row-filtered copy of the frame, so
the columns never change).  `between` applies its two bounds in sequence; the
final catch-all models an operator matching no branch, which leaves the rows
untouched. -/
def filterRows (rows : List Row) (f : Filter) (col : String) (colNum : Bool) :
    Except String (List Row) :=
  match opOrDefault f.op with
  | "between" =>
    let lohi :=
      match f.value with
      | .range a b => (a.getD Value.null, b.getD Value.null)
      | .list [a, b] => (a, b)
      | _ => (Value.null, Value.null)
    let lo := _coerce_scalar_for_series lohi.1 colNum col
    let hi := _coerce_scalar_for_series lohi.2 colNum col
    (if lo ≠ Value.null then
        exFilter (fun r => pyCompare (r col) lo (fun o => decide (o ≠ Ordering.lt))) rows
      else .ok rows) >>= fun rows1 =>
      if hi ≠ Value.null then
        exFilter (fun r => pyCompare (r col) hi (fun o => decide (o ≠ Ordering.gt))) rows1
      else .ok rows1
  | "in" =>
    match f.value with
    | .range _ _ => .error "TypeError: unhashable type in isin"
    | v =>
      let vals0 := match v with | .list vs => vs | .scalar s => [s] | .range _ _ => []
      let vals := vals0.map (fun v => _coerce_scalar_for_series v colNum col)
      .ok (rows.filter (fun r => isinMatch (r col) vals))
  | "==" =>
    .ok (rows.filter (fun r => pyEqB (r col) (_coerce_scalar_for_series (chainScalar f.value) colNum col)))
  | "!=" =>
    .ok (rows.filter (fun r => ! pyEqB (r col) (_coerce_scalar_for_series (chainScalar f.value) colNum col)))
  | ">" =>
    exFilter (fun r => pyCompare (r col) (_coerce_scalar_for_series (chainScalar f.value) colNum col)
      (fun o => decide (o = Ordering.gt))) rows
  | "<" =>
    exFilter (fun r => pyCompare (r col) (_coerce_scalar_for_series (chainScalar f.value) colNum col)
      (fun o => decide (o = Ordering.lt))) rows
  | ">=" =>
    exFilter (fun r => pyCompare (r col) (_coerce_scalar_for_series (chainScalar f.value) colNum col)
      (fun o => decide (o ≠ Ordering.lt))) rows
  | "<=" =>
    exFilter (fun r => pyCompare (r col) (_coerce_scalar_for_series (chainScalar f.value) colNum col)
      (fun o => decide (o ≠ Ordering.gt))) rows
  | "contains" =>
    .ok (rows.filter (fun r => containsCI (pyStrOfValue (r col))
      (pyStrOfValue (_coerce_scalar_for_series (chainScalar f.value) colNum col))))
  | _ => .ok rows

/-- One iteration of the `_apply_filters` loop of src/utils/tools.py: resolve the
column (unresolved or absent columns skip the filter), then dispatch on the
operator through `filterRows`. -/
def filterStep (out : Table) (f : Filter) (schema : List String) : Except String Table :=
  match resolve_col f.col schema with
  | Option.none => .ok out
  | some col =>
    if ¬ col ∈ out.cols then .ok out
    else do
      let rows ← filterRows out.rows f col (decide (col ∈ out.numCols))
      .ok { out with rows := rows }

/-- The `_apply_filters` function of src/utils/tools.py: an empty filter list
returns the frame unchanged, otherwise the filters are applied in list order
(the `.copy()` has value semantics in this embedding). -/
def _apply_filters (df : Table) (filters : List Filter) (schema : List String) :
    Except String Table :=
  if filters = [] then .ok df
  else filters.foldlM (fun out f => filterStep out f schema) df

/-- One order_by entry as it arrives in the descriptor (`tool_query` reads
`ob.get("col")` and `bool(ob.get("desc"))`, so entries are dicts; the Python
truthiness of `desc` is collapsed into a Bool). -/
structure OrderBy where
  col : ColRef := ColRef.pynone
  desc : Bool := false
deriving DecidableEq, Repr

/-- The query descriptor consumed by `tool_query`.  `aggregations` is an ordered
association list modelling a Python dict (an absent key and an empty dict are
indistinguishable to the source).  `limit` stays a dynamic value because the
source applies Python truthiness and `int()` to it.  `computed` truthiness is
collapsed into a Bool. -/
structure Args where
  select : List ColRef := []
  filters : List Filter := []
  time_window : Option (Option Value × Option Value) := Option.none
  group_by : List ColRef := []
  aggregations : List (String × String) := []
  order_by : List OrderBy := []
  limit : Value := Value.null
  computed : Bool := false

/-- Date normalization (src/utils/tools.py lines 98-100): every present DATE_COLS
column is coerced through `pd.to_datetime(..., errors="coerce").dt.date`;
unparseable and missing entries become NaT.  The column's dtype is object
afterwards, so it leaves the numeric set. -/
def normalizeDates (t : Table) : Table :=
  { cols := t.cols
    rows := t.rows.map (fun r c =>
      if c ∈ DATE_COLS_L ∧ c ∈ t.cols then
        match _to_pydate (r c) with
        | some d => .date d
        | Option.none => .nan
      else r c)
    numCols := t.numCols.filter (fun c => ¬ (c ∈ DATE_COLS_L ∧ c ∈ t.cols)) }

/-- The `wants_period_rev` condition of src/utils/tools.py lines 103-107: the
literal string period_revenue_usd appears in select, among the aggregation
keys, or as the raw col of an order_by entry. -/
def wantsPeriodRev (args : Args) : Bool :=
  args.select.any (fun c => match c with | .str s => s = "period_revenue_usd" | _ => false)
  || args.aggregations.any (fun kv => kv.1 = "period_revenue_usd")
  || args.order_by.any (fun ob =>
      match ob.col with | .str s => s = "period_revenue_usd" | _ => false)

/-- Window start: `_to_pydate(win.get("start")) if win else None`. -/
def winStart (args : Args) : Option ℤ :=
  args.time_window.bind (fun w => w.1.bind (fun v => _to_pydate v))

/-- Window end: `_to_pydate(win.get("end")) if win else None`. -/
def winEnd (args : Args) : Option ℤ :=
  args.time_window.bind (fun w => w.2.bind (fun v => _to_pydate v))

/-- The time window actually used by materialization: when start or end is
missing or unparseable, both default to 2000-01-01 and 2100-01-01
(src/utils/tools.py lines 112-113). -/
def windowOf (args : Args) : ℤ × ℤ :=
  match winStart args, winEnd args with
  | some a, some b => (a, b)
  | _, _ => (daysFromCivil 2000 1 1, daysFromCivil 2100 1 1)

/-- The three source columns required for materialization. -/
def SOURCE_COLS : List String := ["contract_start", "contract_end", "mrr_usd"]

/-- Reading a normalized contract-date cell for `_overlap_months`: a date passes,
`None` triggers the `is None` guard (overlap 0), NaT makes the subsequent
timedelta NaN so the `int()` conversion raises, and any other type raises when
compared against the window dates by `max` / `min`. -/
def cellDate? : Value → Except String (Option ℤ)
  | .date d => .ok (some d)
  | .null => .ok Option.none
  | .nan => .error "ValueError: cannot convert float NaN to integer"
  | _ => .error "TypeError: cannot compare date with non-date"

/-- The per-row revenue cell `(mrr * overlap_months).round(2)`: numeric values
multiply and round, NaN propagates, other types raise in the multiplication or
in `.round(2)`. -/
def revCell (mrr : Value) (months : ℤ) : Except String Value :=
  match mrr with
  | .num q => .ok (.num (roundTo2 (qMul q ((months : ℤ) : ℚ))))
  | .bool b => .ok (.num (roundTo2 (qMul (if b then (1 : ℚ) else 0) ((months : ℤ) : ℚ))))
  | .nan => .ok .nan
  | _ => .error "TypeError: unsupported mrr value in multiplication or round"

/-- Append a column name if absent (pandas column assignment appends new columns
at the end and overwrites existing ones in place). -/
def appendCol (cols : List String) (c : String) : List String :=
  if c ∈ cols then cols else cols ++ [c]

/-- One row of the materialization stage: compute `overlap_months` and
`period_revenue_usd` from the contract dates, the window and the mrr value. -/
def materializeRow (w : ℤ × ℤ) (r : Row) : Except String Row := do
  let cs ← cellDate? (r "contract_start")
  let ce ← cellDate? (r "contract_end")
  let months := _overlap_months cs ce (some w.1) (some w.2)
  let rev ← revCell (r "mrr_usd") months
  .ok (fun c =>
    if c = "period_revenue_usd" then rev
    else if c = "overlap_months" then .num ((months : ℤ) : ℚ)
    else r c)

/-- The conditional derived-metric materialization of src/utils/tools.py lines
103-119: triggered when `computed` is truthy or the revenue column is mentioned,
and the three source columns are present; adds `overlap_months` and
`period_revenue_usd` (both numeric dtype). -/
def materializeStage (t : Table) (args : Args) : Except String Table :=
  if (args.computed || wantsPeriodRev args) && SOURCE_COLS.all (fun c => decide (c ∈ t.cols)) then do
    let rows ← t.rows.mapM (materializeRow (windowOf args))
    .ok { cols := appendCol (appendCol t.cols "overlap_months") "period_revenue_usd"
          rows := rows
          numCols := appendCol (appendCol t.numCols "overlap_months") "period_revenue_usd" }
  else .ok t

/-- The four aggregation kinds the explicit-aggregation validation accepts. -/
def AGG_KINDS : List String := ["sum", "mean", "count", "nunique"]

/-- Python dict assignment `m[k] = v` on an ordered association list: overwrite
in place or append. -/
def updateAssoc (m : List (String × String)) (k v : String) : List (String × String) :=
  if m.any (fun p => p.1 = k) then m.map (fun p => if p.1 = k then (k, v) else p)
  else m ++ [(k, v)]

/-- Python `m.setdefault(k, v)` on an ordered association list. -/
def setdefaultAssoc (m : List (String × String)) (k v : String) : List (String × String) :=
  if m.any (fun p => p.1 = k) then m else m ++ [(k, v)]

/-- The explicit-aggregation validation loop of src/utils/tools.py lines 135-140:
resolve each key (falling back to the raw key), keep it when the resolved column
exists and the kind is one of the four supported ones. -/
def explicitAggMap (aggs : List (String × String)) (schema outCols : List String) :
    List (String × String) :=
  aggs.foldl
    (fun m kv =>
      let rc := (resolve_col (.str kv.1) schema).getD kv.1
      if rc ∈ outCols ∧ kv.2 ∈ AGG_KINDS then updateAssoc m rc kv.2 else m) []

/-- The set of columns referenced by filters or order_by entries, resolved against
the current output columns (src/utils/tools.py lines 163-169); a Python set,
modelled as a de-duplicated list (the loop that consumes it acts on each column
independently, so iteration order is irrelevant). -/
def referencedCols (args : Args) (outCols : List String) : List String :=
  ((args.filters.filterMap (fun f => resolve_col f.col outCols)) ++
    (args.order_by.filterMap (fun ob => resolve_col ob.col outCols))).dedup

/-- The aggregation-map construction of src/utils/tools.py lines 135-186:
explicit validated aggregations, then `sum` defaults for selected numeric
non-key columns, then for the revenue and mrr columns, then for referenced
numeric columns (churn_probability_percent defaulting to `max`), and finally
the first-available revenue-like fallback when the map is still empty. -/
def groupAggMap (args : Args) (schema : List String) (out : Table)
    (select gb : List String) : List (String × String) :=
  let m := explicitAggMap args.aggregations schema out.cols
  let dn := select.filter (fun c => ¬ c ∈ gb ∧ c ∈ out.cols ∧ c ∈ out.numCols)
  let m := dn.foldl (fun m c => setdefaultAssoc m c "sum") m
  let m := if "period_revenue_usd" ∈ out.cols then
      setdefaultAssoc m "period_revenue_usd" "sum" else m
  let m := if "mrr_usd" ∈ out.cols then setdefaultAssoc m "mrr_usd" "sum" else m
  let m := (referencedCols args out.cols).foldl
    (fun m c =>
      if c ∈ gb then m
      else if c ∈ out.cols ∧ c ∈ out.numCols then
        setdefaultAssoc m c (if c = "churn_probability_percent" then "max" else "sum")
      else m) m
  if m = [] then
    if "period_revenue_usd" ∈ out.cols then [("period_revenue_usd", "sum")]
    else if "mrr_usd" ∈ out.cols then [("mrr_usd", "sum")]
    else []
  else m

/-- The group key of a row: `None` when any key cell is missing (pandas groupby
drops missing keys by default). -/
def keyTuple (gb : List String) (r : Row) : Option (List Value) :=
  if gb.any (fun c => isNA (r c)) then Option.none else some (gb.map r)

/-- One aggregated cell.  Counting kinds are exact; `sum`, `mean` and `max` are
computed over the non-missing cells (numeric cells by value, an all-string
column sums by concatenation as in Python).  Aggregated cell contents are not
inspected by any claim; row counts and column names are. -/
def aggValue (how : String) (col : String) (rs : List Row) : Value :=
  let cells := (rs.map (fun r => r col)).filter (fun v => ¬ isNA v)
  if how = "count" then .num ((cells.length : ℕ) : ℚ)
  else if how = "nunique" then .num ((cells.dedup.length : ℕ) : ℚ)
  else if how = "sum" then
    match cells.mapM (fun v => match v with
        | .num q => some q | .bool b => some (if b then (1 : ℚ) else 0) | _ => Option.none) with
    | some qs => .num (qs.foldl qAdd 0)
    | Option.none =>
      match cells.mapM (fun v => match v with | .str s => some s | _ => Option.none) with
      | some ss => .str (ss.foldl (fun a b => a ++ b) "")
      | Option.none => .nan
  else if how = "mean" then
    match cells.mapM (fun v => match v with
        | .num q => some q | .bool b => some (if b then (1 : ℚ) else 0) | _ => Option.none) with
    | some qs => if qs.length = 0 then .nan
        else .num (qDiv (qs.foldl qAdd 0) (((qs.length : ℕ) : ℤ) : ℚ))
    | Option.none => .nan
  else if how = "max" then
    match cells with
    | [] => .nan
    | v :: vs => vs.foldl (fun a b => if leB a b then b else a) v
  else .nan

/-- Lexicographic boolean order on group-key tuples (pandas groupby sorts groups
by key). -/
def keyLe : List Value → List Value → Bool
  | [], _ => true
  | _ :: _, [] => false
  | a :: l, b :: m => if leB a b then (if leB b a then keyLe l m else true) else false

/-- A sorting routine as `sort_values` uses one: it receives the boolean
comparison and the rows to arrange, and returns a sorted permutation of its
input. -/
abbrev Sorter := (Row → Row → Bool) → List Row → List Row

/-- The sorter modelling `sort_values`: a stable sort (insertion sort).  pandas
implements `ascending=False` by reversing the rows, running a stable ascending
argsort and reversing the indexer back, and numpy's default quicksort is an
introsort that insertion-sorts small partitions, so each of the source's sort
calls behaves as a stable sort per entry. -/
def insortSorter : Sorter := fun cmp l => l.insertionSort (fun x y => cmp x y = true)

/-- The grouped aggregation `out.groupby(group_by, as_index=False).agg(agg_map)`
(source line 188) for a non-empty aggregation map: one row per distinct
non-missing key tuple, groups sorted by key, key columns first and then the
aggregation-map columns in map order. -/
def groupStage (out : Table) (gb : List String) (aggMap : List (String × String)) : Table :=
  let keys := (out.rows.filterMap (keyTuple gb)).dedup
  let sortedKeys := keys.insertionSort (fun a b => keyLe a b = true)
  let aggCols := (aggMap.map (fun p => p.1)).filter (fun c => ¬ c ∈ gb)
  { cols := gb ++ aggCols
    rows := sortedKeys.map (fun k =>
      let members := out.rows.filter (fun r => keyTuple gb r = some k)
      fun c =>
        match (gb.zip k).find? (fun p => decide (p.1 = c)) with
        | some p => p.2
        | Option.none =>
          match aggMap.find? (fun p => decide (p.1 = c)) with
          | some p => aggValue p.2 c members
          | Option.none => Value.null)
    numCols := gb.filter (fun c => c ∈ out.numCols) ++
      aggCols.filter (fun c =>
        c ∈ out.numCols ∨
          (aggMap.find? (fun p => decide (p.1 = c))).any
            (fun p => p.2 = "count" ∨ p.2 = "nunique")) }

/-- The churn-rate rename of src/utils/tools.py lines 190-191. -/
def renameChurn (t : Table) (aggMap : List (String × String)) : Table :=
  if aggMap.any (fun p => p.1 = "churn" ∧ p.2 = "mean") ∧ "churn" ∈ t.cols then
    { cols := t.cols.map (fun c => if c = "churn" then "churn_rate" else c)
      rows := t.rows.map (fun r c => if c = "churn_rate" then r "churn" else r c)
      numCols := t.numCols.map (fun c => if c = "churn" then "churn_rate" else c) }
  else t

/-- The keep-projection of the ungrouped branch (source lines 193-194). -/
def project (t : Table) (keep : List String) : Table :=
  { cols := keep, rows := t.rows, numCols := t.numCols.filter (fun c => c ∈ keep) }

/-- The per-entry comparison `sort_values(col, ascending=not desc)` sorts by:
pandas implements a stable descending sort by reversing, stably sorting, and
reversing back, which is a stable sort by the flipped comparison. -/
def obCmp (col : String) (desc : Bool) : Row → Row → Bool :=
  fun x y => if desc then leB (y col) (x col) else leB (x col) (y col)

/-- One `sort_values` call: missing keys go to the end (na_position last), the
remaining rows are arranged by the sorter. -/
def orderOnce (S : Sorter) (t : Table) (col : String) (desc : Bool) : Table :=
  let keep := t.rows.filter (fun r => ! isNA (r col))
  let nas := t.rows.filter (fun r => isNA (r col))
  { t with rows := S (obCmp col desc) keep ++ nas }

/-- Resolution of the order_by entries against the result columns (source lines
197-201). -/
def resolvedOrderBy (obs : List OrderBy) (resCols : List String) : List (String × Bool) :=
  obs.filterMap (fun ob => (resolve_col ob.col resCols).map (fun rc => (rc, ob.desc)))

/-- The ordering stage (source lines 197-205): one sort per resolved entry, last
entry first. -/
def orderStage (S : Sorter) (t : Table) (obs : List OrderBy) : Table :=
  (resolvedOrderBy obs t.cols).reverse.foldl
    (fun t p => if p.1 ∈ t.cols then orderOnce S t p.1 p.2 else t) t

/-- `res.head(n)`: the first n rows for non-negative n, all but the last -n rows
for negative n. -/
def pyHead (n : ℤ) (l : List Row) : List Row :=
  if 0 ≤ n then l.take n.toNat else l.take (l.length - (-n).toNat)

/-- The limit stage (source lines 206-207): applied only when the raw limit value
is truthy, after converting it with `int()` (which raises on non-numeric
strings and on NaN). -/
def limitStage (t : Table) (limit : Value) : Except String Table :=
  if pyTruthy limit then do
    let n ← pyInt limit
    .ok { t with rows := pyHead n t.rows }
  else .ok t

/-- The projection-or-aggregation stage of `tool_query` (source lines 124-194):
resolve the select list (empty resolution keeps all columns), resolve the group
keys, and either group-aggregate (an empty aggregation map makes pandas raise
`ValueError: No objects to concatenate` inside `.agg`) or keep the selected
columns.  `schema` is the refreshed post-materialization schema. -/
def projectOrAggregate (args : Args) (schema : List String) (out2 : Table) :
    Except String Table :=
  let select0 := _fix_list args.select schema
  let select1 := if select0 = [] then out2.cols else select0
  let gb := _fix_list args.group_by schema
  if gb ≠ [] then
    let aggMap := groupAggMap args schema out2 select1 gb
    if aggMap = [] then .error "ValueError: No objects to concatenate"
    else .ok (renameChurn (groupStage out2 gb aggMap) aggMap)
  else .ok (project out2 (select1.filter (fun c => c ∈ out2.cols)))

/-- The `tool_query` function of src/utils/tools.py, parametrized by the sorting
routine `sort_values` delegates to.  A `.error` result models an uncaught
Python exception.  Stages in source order: normalize dates, materialize the
derived metric (refreshing the schema), filter, project or aggregate, order,
limit. -/
def tool_query_with (S : Sorter) (df : Table) (args : Args) : Except String Table :=
  materializeStage (normalizeDates df) args >>= fun out1 =>
  _apply_filters out1 args.filters out1.cols >>= fun out2 =>
  projectOrAggregate args out1.cols out2 >>= fun res =>
  limitStage (orderStage S res args.order_by) args.limit

/-- `tool_query` with the stable per-entry sorter; every claim that does not
depend on tie order is independent of the sorter. -/
def tool_query (df : Table) (args : Args) : Except String Table :=
  tool_query_with insortSorter df args

/-- Build a row from an association list (cells not listed read as None). -/
def rowOf (l : List (String × Value)) : Row :=
  fun c => (Option.map (fun p => p.2) (l.find? (fun p => p.1 = c))).getD Value.null

/-- Whether a query execution returned a table (rather than raising). -/
def exOk : Except String Table → Bool
  | .ok _ => true
  | .error _ => false

/-- Row count of a query result, when one was returned. -/
def rowCount : Except String Table → Option ℕ
  | .ok t => some t.rows.length
  | .error _ => Option.none

/-- Column list of a query result, when one was returned. -/
def colsOf : Except String Table → Option (List String)
  | .ok t => some t.cols
  | .error _ => Option.none

/-- The values of one column of a query result, top to bottom. -/
def colVals (c : String) : Except String Table → Option (List Value)
  | .ok t => some (t.rows.map (fun r => r c))
  | .error _ => Option.none

/-
Reference-heap model for the frame claim: Python variables hold references to
DataFrame objects, `df.copy()` allocates a fresh object, in-place column
assignment (`out[c] = ...`) mutates the referenced object, and every other
pandas operation used by `tool_query` returns a newly allocated frame.
-/

/-- A heap of allocated DataFrames; a reference is an index into it. -/
abbrev Heap := List Table

/-- Allocate a fresh frame, returning the new heap and its reference. -/
def halloc (h : Heap) (t : Table) : Heap × ℕ := (h ++ [t], h.length)

/-- Dereference (out-of-range reads give an empty frame; never exercised). -/
def hget (h : Heap) (r : ℕ) : Table := h.getD r ⟨[], [], []⟩

/-- In-place mutation of the frame a reference points to. -/
def hset (h : Heap) (r : ℕ) (t : Table) : Heap := h.set r t

/-- `tool_query` with Python reference semantics made explicit: `out = df.copy()`
allocates (line 96), the date normalization and materialization stages mutate
`out` in place through column assignment (lines 98-119), and the remaining
stages (`_apply_filters` copies once more; projection, groupby, sort and head
all return fresh frames) only allocate.  Returns the final heap and the
reference of the result frame when no exception was raised. -/
def tool_query_heap (S : Sorter) (h : Heap) (dfRef : ℕ) (args : Args) :
    Heap × Except String ℕ :=
  let df := hget h dfRef
  let (h1, outR) := halloc h df
  let h2 := hset h1 outR (normalizeDates (hget h1 outR))
  match materializeStage (hget h2 outR) args with
  | .error e => (h2, .error e)
  | .ok m =>
    let h3 := hset h2 outR m
    let out1 := hget h3 outR
    let rest : Except String Table :=
      _apply_filters out1 args.filters out1.cols >>= fun out2 =>
      projectOrAggregate args out1.cols out2 >>= fun res =>
      limitStage (orderStage S res args.order_by) args.limit
    match rest with
    | .error e => (h3, .error e)
    | .ok t => let (h4, resR) := halloc h3 t
               (h4, .ok resR)

/-- Extract the table of a successful execution (empty table on error); used to
name concrete results in witnesses. -/
def tableOf (x : Except String Table) : Table :=
  match x with
  | .ok t => t
  | .error _ => ⟨[], [], []⟩

/-
Concrete data for witnesses and counterexamples.
-/

/-- A small sales table with the three revenue source columns. -/
def wTable : Table :=
  { cols := ["company_name", "mrr_usd", "contract_start", "contract_end", "churn"]
    rows :=
      [rowOf [("company_name", .str "alpha"), ("mrr_usd", .num 100),
              ("contract_start", .str "2023-01-01"), ("contract_end", .str "2023-12-31"),
              ("churn", .num 0)],
       rowOf [("company_name", .str "beta"), ("mrr_usd", .num 200),
              ("contract_start", .str "2022-01-01"), ("contract_end", .str "2022-06-30"),
              ("churn", .num 1)]]
    numCols := ["mrr_usd", "churn"] }

/-- A one-row table whose mrr value is missing (NaN), with all three revenue
source columns present. -/
def nanTable : Table :=
  { cols := ["company_name", "mrr_usd", "contract_start", "contract_end"]
    rows :=
      [rowOf [("company_name", .str "gamma"), ("mrr_usd", .nan),
              ("contract_start", .str "2023-01-01"), ("contract_end", .str "2023-12-31")]]
    numCols := ["mrr_usd"] }

/-- The i-th row of a table (an all-None row when out of range). -/
def rowAt (t : Table) (i : ℕ) : Row := t.rows.getD i (fun _ => Value.null)

theorem qMk_eq (n d : ℤ) : qMk n d = (n : ℚ) / (d : ℚ) := by
  unfold qMk
  split
  · next hd => subst hd; simp
  · next hd =>
    dsimp only
    have hg : kgcd (if d < 0 then -n else n).natAbs d.natAbs =
        Nat.gcd (if d < 0 then -n else n).natAbs d.natAbs :=
      kgcd_key _ _ _ (Nat.lt_succ_self _)
    set n' := if d < 0 then -n else n with hn'
    set na := n'.natAbs with hna
    set da := d.natAbs with hda
    set g := kgcd na da with hgdef
    have hgna : g ∣ na := hg ▸ Nat.gcd_dvd_left na da
    have hgda : g ∣ da := hg ▸ Nat.gcd_dvd_right na da
    have hdapos : 0 < da := Int.natAbs_pos.mpr hd
    have hgpos : 0 < g := by rw [hg]; exact Nat.gcd_pos_of_pos_right na hdapos
    have hgq : ((g : ℕ) : ℚ) ≠ 0 := by
      exact_mod_cast (by omega : ¬ g = 0)
    have hcancel : (((na / g : ℕ) : ℚ)) / (((da / g : ℕ) : ℚ)) = ((na : ℚ)) / ((da : ℚ)) := by
      rw [Nat.cast_div hgna hgq, Nat.cast_div hgda hgq]
      exact div_div_div_cancel_right₀ hgq _ _
    have habs : ((da : ℕ) : ℚ) = |(d : ℚ)| := by
      rw [hda, Int.cast_natAbs, Int.cast_abs]
    have hnabs : ((na : ℕ) : ℚ) = |(n' : ℚ)| := by
      rw [hna, Int.cast_natAbs, Int.cast_abs]
    have hgoal : (n' : ℚ) / |(d : ℚ)| = (n : ℚ) / (d : ℚ) := by
      by_cases hdneg : d < 0
      · rw [hn']
        rw [if_pos hdneg, abs_of_neg (show ((d : ℤ) : ℚ) < 0 by exact_mod_cast hdneg)]
        push_cast
        exact neg_div_neg_eq _ _
      · rw [hn']
        rw [if_neg hdneg,
          abs_of_nonneg (show (0 : ℚ) ≤ ((d : ℤ) : ℚ) by exact_mod_cast (by omega : (0 : ℤ) ≤ d))]
    by_cases hs : 0 ≤ n'
    · rw [dif_pos hs]
      rw [Rat.mk'_eq_divInt, Rat.divInt_eq_div, Int.cast_natCast, Int.cast_natCast]
      rw [hcancel, hnabs, habs,
        abs_of_nonneg (show (0 : ℚ) ≤ (n' : ℚ) by exact_mod_cast hs)]
      exact hgoal
    · rw [dif_neg hs]
      rw [Rat.mk'_eq_divInt, ← Rat.neg_divInt, Rat.divInt_eq_div, Int.cast_natCast,
        Int.cast_natCast]
      rw [hcancel, hnabs, habs,
        abs_of_neg (show ((n' : ℤ) : ℚ) < 0 by exact_mod_cast (by omega : n' < 0))]
      rw [neg_div, neg_neg]
      exact hgoal

theorem qAdd_eq (a b : ℚ) : qAdd a b = a + b := by
  rw [qAdd, qMk_eq]
  conv_rhs => rw [← Rat.num_div_den a, ← Rat.num_div_den b]
  rw [div_add_div _ _ (by exact_mod_cast a.den_nz : ((a.den : ℚ)) ≠ 0)
    (by exact_mod_cast b.den_nz : ((b.den : ℚ)) ≠ 0)]
  push_cast
  ring_nf

theorem qMul_eq (a b : ℚ) : qMul a b = a * b := by
  rw [qMul, qMk_eq]
  conv_rhs => rw [← Rat.num_div_den a, ← Rat.num_div_den b]
  rw [div_mul_div_comm]
  push_cast
  ring_nf

theorem qDiv_eq (a b : ℚ) : qDiv a b = a / b := by
  rw [qDiv, qMk_eq]
  rcases eq_or_ne b 0 with hb | hb
  · subst hb
    simp
  · conv_rhs => rw [← Rat.num_div_den a, ← Rat.num_div_den b]
    rw [div_div_div_comm]
    have hbn : ((b.num : ℤ) : ℚ) ≠ 0 := by
      exact_mod_cast Rat.num_ne_zero.mpr hb
    push_cast
    rw [div_div_eq_mul_div, div_mul_eq_mul_div]
    ring_nf

theorem q30four_eq : q30four = (30.4 : ℚ) := by
  rw [q30four, qMk_eq]
  norm_num

theorem ebind_ok {α β : Type} {x : Except String α} {g : α → Except String β} {r : β}
    (h : x >>= g = .ok r) : ∃ a, x = .ok a ∧ g a = .ok r := by
  cases x with
  | error e => exact absurd h (by simp [Bind.bind, Except.bind])
  | ok a => exact ⟨a, rfl, h⟩

theorem exFilter_sublist {α : Type} {p : α → Except String Bool} :
    ∀ {l l' : List α}, exFilter p l = .ok l' → l'.Sublist l := by
  intro l
  induction l with
  | nil =>
    intro l' h
    simp only [exFilter] at h
    cases h
    exact List.Sublist.refl _
  | cons a t ih =>
    intro l' h
    simp only [exFilter] at h
    obtain ⟨b, _, h⟩ := ebind_ok h
    obtain ⟨r, hr, h⟩ := ebind_ok h
    cases h
    cases b with
    | true => exact (ih hr).cons₂ a
    | false => exact (ih hr).cons a

theorem filterRows_sublist {rows rows' : List Row} {f : Filter} {col : String} {colNum : Bool}
    (h : filterRows rows f col colNum = .ok rows') : rows'.Sublist rows := by
  unfold filterRows at h
  split at h
  · -- between
    obtain ⟨rows1, h1, h2⟩ := ebind_ok h
    have s1 : rows1.Sublist rows := by
      split at h1
      · exact exFilter_sublist h1
      · cases h1; exact List.Sublist.refl _
    have s2 : rows'.Sublist rows1 := by
      split at h2
      · exact exFilter_sublist h2
      · cases h2; exact List.Sublist.refl _
    exact s2.trans s1
  · -- in
    split at h
    · cases h
    · cases h; exact List.filter_sublist _
  · cases h; exact List.filter_sublist _
  · cases h; exact List.filter_sublist _
  · exact exFilter_sublist h
  · exact exFilter_sublist h
  · exact exFilter_sublist h
  · exact exFilter_sublist h
  · cases h; exact List.filter_sublist _
  · cases h; exact List.Sublist.refl _

theorem filterStep_ok {out out' : Table} {f : Filter} {schema : List String}
    (h : filterStep out f schema = .ok out') :
    out'.cols = out.cols ∧ out'.numCols = out.numCols ∧ out'.rows.Sublist out.rows := by
  unfold filterStep at h
  split at h
  · cases h; exact ⟨rfl, rfl, List.Sublist.refl _⟩
  · split at h
    · cases h; exact ⟨rfl, rfl, List.Sublist.refl _⟩
    · obtain ⟨rows, hr, h⟩ := ebind_ok h
      cases h
      exact ⟨rfl, rfl, filterRows_sublist hr⟩

theorem foldlM_filterStep_ok {schema : List String} :
    ∀ {fs : List Filter} {df out' : Table},
      List.foldlM (fun out f => filterStep out f schema) df fs = .ok out' →
      out'.cols = df.cols ∧ out'.numCols = df.numCols ∧ out'.rows.Sublist df.rows := by
  intro fs
  induction fs with
  | nil =>
    intro df out' h
    simp only [List.foldlM] at h
    cases h
    exact ⟨rfl, rfl, List.Sublist.refl _⟩
  | cons f t ih =>
    intro df out' h
    simp only [List.foldlM] at h
    obtain ⟨d', hd, h⟩ := ebind_ok h
    obtain ⟨c1, n1, s1⟩ := filterStep_ok hd
    obtain ⟨c2, n2, s2⟩ := ih h
    exact ⟨c2.trans c1, n2.trans n1, s2.trans s1⟩

theorem apply_filters_ok {df out' : Table} {fs : List Filter} {schema : List String}
    (h : _apply_filters df fs schema = .ok out') :
    out'.cols = df.cols ∧ out'.numCols = df.numCols ∧ out'.rows.Sublist df.rows := by
  unfold _apply_filters at h
  split at h
  · cases h; exact ⟨rfl, rfl, List.Sublist.refl _⟩
  · exact foldlM_filterStep_ok h

theorem apply_filters_append {df : Table} {fs : List Filter} {f : Filter}
    {schema : List String} :
    _apply_filters df (fs ++ [f]) schema =
      _apply_filters df fs schema >>= fun t => filterStep t f schema := by
  have lone : ∀ t : Table, List.foldlM (fun out f => filterStep out f schema) t [f] =
      filterStep t f schema := by
    intro t
    simp only [List.foldlM]
    cases filterStep t f schema <;> rfl
  rcases Decidable.em (fs = []) with he | he
  · subst he
    unfold _apply_filters
    rw [if_neg (by simp), if_pos rfl, List.nil_append, lone]
    rfl
  · unfold _apply_filters
    rw [if_neg (by simp [he]), if_neg he, List.foldlM_append]
    simp only [lone]

theorem orderOnce_cols (S : Sorter) (t : Table) (col : String) (desc : Bool) :
    (orderOnce S t col desc).cols = t.cols ∧ (orderOnce S t col desc).numCols = t.numCols :=
  ⟨rfl, rfl⟩

theorem orderStage_cols (S : Sorter) (t : Table) (obs : List OrderBy) :
    (orderStage S t obs).cols = t.cols ∧ (orderStage S t obs).numCols = t.numCols := by
  unfold orderStage
  generalize (resolvedOrderBy obs t.cols).reverse = ps
  induction ps generalizing t with
  | nil => exact ⟨rfl, rfl⟩
  | cons p ps ih =>
    simp only [List.foldl]
    rcases Decidable.em (p.1 ∈ t.cols) with hm | hm
    · rw [if_pos hm]
      obtain ⟨h1, h2⟩ := ih (orderOnce S t p.1 p.2)
      exact ⟨h1, h2⟩
    · rw [if_neg hm]
      exact ih t

theorem insortSorter_perm (cmp : Row → Row → Bool) (l : List Row) :
    (insortSorter cmp l).Perm l :=
  List.perm_insertionSort _ l

theorem filter_split_perm {α : Type} (p : α → Bool) (l : List α) :
    ((l.filter (fun x => ! p x)) ++ l.filter p).Perm l := by
  induction l with
  | nil => exact List.Perm.refl _
  | cons a t ih =>
    cases hp : p a
    · simp only [List.filter_cons, hp, Bool.not_false, if_pos, cond_true, cond_false]
      exact ih.cons a
    · simp only [List.filter_cons, hp, Bool.not_true, cond_true, cond_false]
      exact List.perm_middle.trans (ih.cons a)

theorem orderOnce_perm (t : Table) (col : String) (desc : Bool) :
    (orderOnce insortSorter t col desc).rows.Perm t.rows := by
  unfold orderOnce
  exact ((insortSorter_perm _ _).append_right _).trans
    (filter_split_perm (fun r => isNA (r col)) t.rows)

theorem orderStage_perm (t : Table) (obs : List OrderBy) :
    (orderStage insortSorter t obs).rows.Perm t.rows := by
  unfold orderStage
  generalize (resolvedOrderBy obs t.cols).reverse = ps
  induction ps generalizing t with
  | nil => exact List.Perm.refl _
  | cons p ps ih =>
    simp only [List.foldl]
    rcases Decidable.em (p.1 ∈ t.cols) with hm | hm
    · rw [if_pos hm]
      exact (ih (orderOnce insortSorter t p.1 p.2)).trans (orderOnce_perm t p.1 p.2)
    · rw [if_neg hm]
      exact ih t

theorem pyHead_length_mono {l1 l2 : List Row} (n : ℤ) (h : l2.length ≤ l1.length) :
    (pyHead n l2).length ≤ (pyHead n l1).length := by
  unfold pyHead
  rcases Decidable.em (0 ≤ n) with hn | hn
  · rw [if_pos hn, if_pos hn]
    simp only [List.length_take]
    omega
  · rw [if_neg hn, if_neg hn]
    simp only [List.length_take]
    omega

theorem limitStage_ok_cols {t t' : Table} {v : Value} (h : limitStage t v = .ok t') :
    t'.cols = t.cols ∧ t'.numCols = t.numCols := by
  unfold limitStage at h
  split at h
  · obtain ⟨n, _, h⟩ := ebind_ok h
    cases h
    exact ⟨rfl, rfl⟩
  · cases h; exact ⟨rfl, rfl⟩

theorem limitStage_length_mono {t1 t2 r1 r2 : Table} {v : Value}
    (h1 : limitStage t1 v = .ok r1) (h2 : limitStage t2 v = .ok r2)
    (hl : t2.rows.length ≤ t1.rows.length) : r2.rows.length ≤ r1.rows.length := by
  unfold limitStage at h1 h2
  by_cases htr : pyTruthy v = true
  · rw [if_pos htr] at h1 h2
    obtain ⟨n1, hn1, h1⟩ := ebind_ok h1
    obtain ⟨n2, hn2, h2⟩ := ebind_ok h2
    rw [hn1] at hn2
    cases hn2
    cases h1
    cases h2
    exact pyHead_length_mono _ hl
  · rw [if_neg htr] at h1 h2
    cases h1
    cases h2
    exact hl

theorem groupStage_length (out : Table) (gb : List String) (m : List (String × String)) :
    (groupStage out gb m).rows.length = ((out.rows.filterMap (keyTuple gb)).dedup).length := by
  unfold groupStage
  simp only [List.length_map]
  exact List.length_insertionSort _ _

theorem renameChurn_length (t : Table) (m : List (String × String)) :
    (renameChurn t m).rows.length = t.rows.length := by
  unfold renameChurn
  split
  · simp
  · rfl

theorem dedup_length_le_of_sublist {α : Type} [DecidableEq α] {l1 l2 : List α}
    (h : l1.Sublist l2) : l1.dedup.length ≤ l2.dedup.length := by
  rw [← List.card_toFinset, ← List.card_toFinset]
  refine Finset.card_le_card ?_
  intro x hx
  rw [List.mem_toFinset] at hx ⊢
  exact h.subset hx

theorem args_addf_select (args : Args) (fs : List Filter) :
    ({ args with filters := fs } : Args).select = args.select := rfl

theorem args_addf_group_by (args : Args) (fs : List Filter) :
    ({ args with filters := fs } : Args).group_by = args.group_by := rfl

theorem args_addf_order_by (args : Args) (fs : List Filter) :
    ({ args with filters := fs } : Args).order_by = args.order_by := rfl

theorem args_addf_limit (args : Args) (fs : List Filter) :
    ({ args with filters := fs } : Args).limit = args.limit := rfl

theorem args_addf_filters (args : Args) (fs : List Filter) :
    ({ args with filters := fs } : Args).filters = fs := rfl

theorem tool_query_with_ok {S : Sorter} {df : Table} {args : Args} {r : Table}
    (h : tool_query_with S df args = .ok r) :
    ∃ out1 out2 res,
      materializeStage (normalizeDates df) args = .ok out1 ∧
      _apply_filters out1 args.filters out1.cols = .ok out2 ∧
      projectOrAggregate args out1.cols out2 = .ok res ∧
      limitStage (orderStage S res args.order_by) args.limit = .ok r := by
  unfold tool_query_with at h
  obtain ⟨out1, h1, h⟩ := ebind_ok h
  obtain ⟨out2, h2, h⟩ := ebind_ok h
  obtain ⟨res, h3, h⟩ := ebind_ok h
  exact ⟨out1, out2, res, h1, h2, h3, h⟩

theorem poa_length_mono {args : Args} {f : Filter} {schema : List String}
    {out2 out2' res res' : Table}
    (hc : out2'.cols = out2.cols) (hs : out2'.rows.Sublist out2.rows)
    (h : projectOrAggregate args schema out2 = .ok res)
    (h' : projectOrAggregate { args with filters := args.filters ++ [f] } schema out2' = .ok res') :
    res'.rows.length ≤ res.rows.length := by
  simp only [projectOrAggregate] at h h'
  rw [args_addf_select, args_addf_group_by, hc] at h'
  by_cases hgb : _fix_list args.group_by schema = []
  · rw [if_neg (by simp [hgb])] at h h'
    cases h
    cases h'
    simpa [project] using hs.length_le
  · rw [if_pos hgb] at h h'
    by_cases hm : groupAggMap args schema out2
        (if _fix_list args.select schema = [] then out2.cols else _fix_list args.select schema)
        (_fix_list args.group_by schema) = []
    · rw [if_pos hm] at h
      exact Except.noConfusion h
    · rw [if_neg hm] at h
      by_cases hm' : groupAggMap { args with filters := args.filters ++ [f] } schema out2'
          (if _fix_list args.select schema = [] then out2.cols else _fix_list args.select schema)
          (_fix_list args.group_by schema) = []
      · rw [if_pos hm'] at h'
        exact Except.noConfusion h'
      · rw [if_neg hm'] at h'
        cases h
        cases h'
        rw [renameChurn_length, renameChurn_length, groupStage_length, groupStage_length]
        exact dedup_length_le_of_sublist (hs.filterMap _)

theorem normalizeDates_cols (t : Table) : (normalizeDates t).cols = t.cols := rfl

theorem mem_appendCol_self (cols : List String) (c : String) : c ∈ appendCol cols c := by
  unfold appendCol
  split
  · assumption
  · exact List.mem_append_right _ (List.mem_singleton.mpr rfl)

theorem mem_appendCol_of_mem {cols : List String} {c : String} (c' : String)
    (h : c ∈ cols) : c ∈ appendCol cols c' := by
  unfold appendCol
  split
  · exact h
  · exact List.mem_append_left _ h

theorem materializeStage_fired {t : Table} {args : Args} {o : Table}
    (htrig : (args.computed || wantsPeriodRev args) = true)
    (hsrc : SOURCE_COLS.all (fun c => decide (c ∈ t.cols)) = true)
    (hm : materializeStage t args = .ok o) :
    o.cols = appendCol (appendCol t.cols "overlap_months") "period_revenue_usd" := by
  unfold materializeStage at hm
  rw [if_pos (by rw [htrig, hsrc]; rfl)] at hm
  obtain ⟨rows, _, hm⟩ := ebind_ok hm
  cases hm
  rfl

theorem limitStage_posint {t r : Table} {N : ℤ} (hN : 1 ≤ N)
    (h : limitStage t (Value.num (N : ℚ)) = .ok r) : (r.rows.length : ℤ) ≤ N := by
  unfold limitStage at h
  have htr : pyTruthy (Value.num (N : ℚ)) = true := by
    simp only [pyTruthy, decide_eq_true_eq, ne_eq]
    intro h0
    rw [Int.cast_eq_zero] at h0
    omega
  rw [if_pos htr] at h
  obtain ⟨n, hn, h⟩ := ebind_ok h
  have hpi : pyInt (Value.num (N : ℚ)) = .ok N := by
    simp only [pyInt, Rat.num_intCast, Rat.den_intCast, Nat.cast_one, Int.tdiv_one]
  rw [hpi] at hn
  cases hn
  cases h
  show ((pyHead N t.rows).length : ℤ) ≤ N
  unfold pyHead
  rw [if_pos (by omega : (0 : ℤ) ≤ N)]
  have h1 : (t.rows.take N.toNat).length = min N.toNat t.rows.length := List.length_take _ _
  have h2 : (N.toNat : ℤ) = N := Int.toNat_of_nonneg (by omega)
  omega

theorem limitStage_mem {t r : Table} {v : Value} (h : limitStage t v = .ok r) :
    ∀ row ∈ r.rows, row ∈ t.rows := by
  unfold limitStage at h
  by_cases ht : pyTruthy v = true
  · rw [if_pos ht] at h
    obtain ⟨n, _, h⟩ := ebind_ok h
    cases h
    intro row hrow
    have htake : row ∈ pyHead n t.rows := hrow
    unfold pyHead at htake
    split at htake <;> exact (List.take_sublist _ _).subset htake
  · rw [if_neg ht] at h
    cases h
    exact fun row hrow => hrow

theorem mapM_ok_mem {α β : Type} {f : α → Except String β} :
    ∀ {l : List α} {l' : List β}, l.mapM f = .ok l' → ∀ b ∈ l', ∃ a ∈ l, f a = .ok b := by
  intro l
  induction l with
  | nil =>
    intro l' h b hb
    rw [List.mapM_nil] at h
    cases h
    cases hb
  | cons a t ih =>
    intro l' h b hb
    rw [List.mapM_cons] at h
    obtain ⟨b0, hb0, h⟩ := ebind_ok h
    obtain ⟨bs, hbs, h⟩ := ebind_ok h
    cases h
    rcases List.mem_cons.mp hb with hb | hb
    · subst hb
      exact ⟨a, List.mem_cons_self a t, hb0⟩
    · obtain ⟨a', ha', hfa'⟩ := ih hbs b hb
      exact ⟨a', List.mem_cons_of_mem a ha', hfa'⟩

/-
Claim theorems.
-/

/-- Claim C1 (code evaluation at the failing input): `tool_query` does raise on a
malformed limit — a truthy non-integer limit string reaches `int(args["limit"])`
and raises ValueError, while the identical query without the limit returns a
table.  This contradicts the spec's "no stage raises on malformed input". -/
theorem tool_query_limit_raises :
    exOk (tool_query wTable { limit := Value.str "x" }) = false ∧
    pyTruthy (Value.str "x") = true ∧
    exOk (tool_query wTable {}) = true := by
  refine ⟨by decide, by decide, by decide⟩

/-- Claim C2 counterexample: a descriptor with `limit = 0` (a non-negative
integer) returns every row because `if args.get("limit")` treats 0 as unset, so
`len(result) = 2 > 0` and the `N ≥ 0` limit invariant fails at N = 0. -/
theorem limit_zero_not_enforced :
    rowCount (tool_query wTable { limit := Value.num 0 }) = some 2 ∧ ¬ (2 : ℕ) ≤ 0 := by
  refine ⟨by decide, by decide⟩

/-- Claim C2 (amended): for every descriptor whose limit is a positive integer
N ≥ 1, the result table has at most N rows (zero means unlimited). -/
theorem limit_positive_bound (df : Table) (args : Args) (N : ℤ) (hN : 1 ≤ N)
    (hl : args.limit = Value.num (N : ℚ)) :
    ∀ n, rowCount (tool_query df args) = some n → (n : ℤ) ≤ N := by
  intro n hn
  rcases hq : tool_query df args with e | r
  · rw [hq] at hn
    cases hn
  · rw [hq] at hn
    simp only [rowCount, Option.some.injEq] at hn
    subst hn
    obtain ⟨o1, o2, res, _, _, _, hlim⟩ := tool_query_with_ok hq
    rw [hl] at hlim
    exact limitStage_posint hN hlim

/-- Witness for the amended C2 at a concrete input: limit 2 on a two-row table
yields 2 rows and the bound holds. -/
theorem limit_positive_bound_w :
    rowCount (tool_query wTable { limit := Value.num 2 }) = some 2 ∧ ((2 : ℕ) : ℤ) ≤ 2 :=
  ⟨by decide, limit_positive_bound wTable { limit := Value.num 2 } 2 (by decide) (by decide) 2
    (by decide)⟩

/-- Claim C6: filtering is monotone — on the same table and descriptor, appending
one more filter never increases the row count of the result (whenever both
executions return a table). -/
theorem tool_query_filter_monotone (df : Table) (args : Args) (f : Filter) (r1 r2 : Table)
    (h1 : tool_query df args = .ok r1)
    (h2 : tool_query df { args with filters := args.filters ++ [f] } = .ok r2) :
    r2.rows.length ≤ r1.rows.length := by
  obtain ⟨o1, o2, res, hm, hf, hp, hl⟩ := tool_query_with_ok h1
  obtain ⟨o1', o2', res', hm', hf', hp', hl'⟩ := tool_query_with_ok h2
  rw [show materializeStage (normalizeDates df) { args with filters := args.filters ++ [f] } =
      materializeStage (normalizeDates df) args from rfl, hm] at hm'
  cases hm'
  rw [args_addf_filters, apply_filters_append, hf] at hf'
  obtain ⟨mid, hmid, hstep⟩ := ebind_ok hf'
  rw [show (Except.ok o2 : Except String Table) = pure o2 from rfl] at hmid
  cases hmid
  obtain ⟨hc, hnc, hs⟩ := filterStep_ok hstep
  have hres : res'.rows.length ≤ res.rows.length := poa_length_mono hc hs hp hp'
  have ho : (orderStage insortSorter res' args.order_by).rows.length ≤
      (orderStage insortSorter res args.order_by).rows.length := by
    rw [(orderStage_perm res' args.order_by).length_eq,
        (orderStage_perm res args.order_by).length_eq]
    exact hres
  exact limitStage_length_mono hl hl' ho

/-- Witness for C6 at a concrete input: adding an mrr filter takes the result
from 2 rows to at most 2. -/
theorem tool_query_filter_monotone_w :
    (tableOf (tool_query wTable
        { filters := [{ col := .str "mrr_usd", op := some ">", value := .scalar (.num 150) }] })).rows.length ≤
      (tableOf (tool_query wTable {})).rows.length :=
  tool_query_filter_monotone wTable {}
    { col := .str "mrr_usd", op := some ">", value := .scalar (.num 150) } _ _ rfl rfl

/-- Claim C10: when the derived metric is materialized and the descriptor has an
empty group_by and a select that resolves to nothing (so all columns are kept),
the result contains the overlap_months column in addition to period_revenue_usd
and every source column, and each result row's overlap_months cell holds that
row's intermediate month count: `_overlap_months` of the row's own contract
dates against the descriptor's window. -/
theorem overlap_months_retained (df : Table) (args : Args) (r : Table)
    (htrig : (args.computed || wantsPeriodRev args) = true)
    (hsrc : SOURCE_COLS.all (fun c => decide (c ∈ df.cols)) = true)
    (hgb : args.group_by = [])
    (hsel : _fix_list args.select
      (appendCol (appendCol df.cols "overlap_months") "period_revenue_usd") = [])
    (h : tool_query df args = .ok r) :
    "overlap_months" ∈ r.cols ∧
    "period_revenue_usd" ∈ r.cols ∧
    (∀ c ∈ df.cols, c ∈ r.cols) ∧
    (∀ row ∈ r.rows, ∃ cs ce,
      cellDate? (row "contract_start") = .ok cs ∧
      cellDate? (row "contract_end") = .ok ce ∧
      row "overlap_months" =
        Value.num ((_overlap_months cs ce (some (windowOf args).1)
          (some (windowOf args).2) : ℤ) : ℚ)) := by
  obtain ⟨o1, o2, res, hm, hf, hp, hl⟩ := tool_query_with_ok h
  have hcols : o1.cols = appendCol (appendCol df.cols "overlap_months") "period_revenue_usd" :=
    @materializeStage_fired (normalizeDates df) args o1 htrig hsrc hm
  obtain ⟨hfc, _, hfs⟩ := apply_filters_ok hf
  have hsel' : _fix_list args.select o1.cols = [] := by rw [hcols]; exact hsel
  have hgb' : _fix_list args.group_by o1.cols = [] := by rw [hgb]; rfl
  simp only [projectOrAggregate] at hp
  rw [hgb', hsel'] at hp
  rw [if_neg (show ¬ (([] : List String) ≠ []) by simp)] at hp
  rw [if_pos rfl] at hp
  cases hp
  have hresc : (project o2 (o2.cols.filter (fun c => c ∈ o2.cols))).cols = o2.cols := by
    simp only [project]
    exact List.filter_eq_self.mpr (fun a ha => by simpa using ha)
  have hordc := (orderStage_cols insortSorter
    (project o2 (o2.cols.filter (fun c => c ∈ o2.cols))) args.order_by).1
  obtain ⟨hlc, _⟩ := limitStage_ok_cols hl
  have hrc : r.cols = appendCol (appendCol df.cols "overlap_months") "period_revenue_usd" := by
    rw [hlc, hordc, hresc, hfc, hcols]
  refine ⟨?_, ?_, ?_, ?_⟩
  · rw [hrc]
    exact mem_appendCol_of_mem _ (mem_appendCol_self _ _)
  · rw [hrc]
    exact mem_appendCol_self _ _
  · intro c hc
    rw [hrc]
    exact mem_appendCol_of_mem _ (mem_appendCol_of_mem _ hc)
  · intro row hrow
    have hrow1 : row ∈ (orderStage insortSorter
        (project o2 (o2.cols.filter (fun c => c ∈ o2.cols))) args.order_by).rows :=
      limitStage_mem hl row hrow
    have hrow2 : row ∈ o2.rows :=
      (orderStage_perm (project o2 (o2.cols.filter (fun c => c ∈ o2.cols)))
        args.order_by).mem_iff.mp hrow1
    have hrow3 : row ∈ o1.rows := hfs.subset hrow2
    unfold materializeStage at hm
    rw [if_pos (show ((args.computed || wantsPeriodRev args) &&
        SOURCE_COLS.all (fun c => decide (c ∈ (normalizeDates df).cols))) = true by
      rw [Bool.and_eq_true]
      exact ⟨htrig, hsrc⟩)] at hm
    obtain ⟨rows, hrows, hm⟩ := ebind_ok hm
    cases hm
    obtain ⟨orig, _, horig⟩ := mapM_ok_mem hrows row hrow3
    unfold materializeRow at horig
    obtain ⟨cs, hcs, horig⟩ := ebind_ok horig
    obtain ⟨ce, hce, horig⟩ := ebind_ok horig
    obtain ⟨rev, hrev, horig⟩ := ebind_ok horig
    cases horig
    exact ⟨cs, ce, hcs, hce, rfl⟩

/-- Witness for C10 at a concrete input: on the sales table with computed set,
the result keeps overlap_months, period_revenue_usd and every source column,
and each row's overlap_months cell is its own month count. -/
theorem overlap_months_retained_w :
    "overlap_months" ∈ (tableOf (tool_query wTable { computed := true })).cols ∧
    "period_revenue_usd" ∈ (tableOf (tool_query wTable { computed := true })).cols ∧
    (∀ c ∈ wTable.cols, c ∈ (tableOf (tool_query wTable { computed := true })).cols) ∧
    (∀ row ∈ (tableOf (tool_query wTable { computed := true })).rows, ∃ cs ce,
      cellDate? (row "contract_start") = .ok cs ∧
      cellDate? (row "contract_end") = .ok ce ∧
      row "overlap_months" =
        Value.num ((_overlap_months cs ce
          (some (windowOf ({ computed := true } : Args)).1)
          (some (windowOf ({ computed := true } : Args)).2) : ℤ) : ℚ)) :=
  overlap_months_retained wTable { computed := true } _ (by decide) (by decide) rfl (by decide)
    rfl

/-- Claim C4: `_overlap_months` returns 0 when any date is missing or the ranges
do not overlap, and otherwise the ceiling of (overlap days + 1) / 30.4; the
per-row revenue is the monthly value times the month count rounded to two
decimals; and the two concrete scenarios of the spec hold (June 2023 window on
a 2023 contract gives 1 month and 100.00; a 2024 window gives 0 and 0.00). -/
theorem overlap_months_spec :
    (∀ cs ce ws we : Option ℤ,
      cs = Option.none ∨ ce = Option.none ∨ ws = Option.none ∨ we = Option.none →
      _overlap_months cs ce ws we = 0) ∧
    (∀ a b c d : ℤ, min b d < max a c →
      _overlap_months (some a) (some b) (some c) (some d) = 0) ∧
    (∀ a b c d : ℤ, max a c ≤ min b d →
      _overlap_months (some a) (some b) (some c) (some d) =
        ⌈((min b d - max a c + 1 : ℤ) : ℚ) / (30.4 : ℚ)⌉) ∧
    (∀ (q : ℚ) (m : ℤ), revCell (Value.num q) m = .ok (Value.num (roundTo2 (q * (m : ℚ))))) ∧
    (_overlap_months (parseYMD "2023-01-01") (parseYMD "2023-12-31")
        (parseYMD "2023-06-01") (parseYMD "2023-06-30") = 1 ∧
      roundTo2 ((100 : ℚ) * 1) = 100) ∧
    (_overlap_months (parseYMD "2023-01-01") (parseYMD "2023-12-31")
        (parseYMD "2024-01-01") (parseYMD "2024-01-31") = 0 ∧
      roundTo2 ((100 : ℚ) * 0) = 0) := by
  refine ⟨?_, ?_, ?_, ?_, ⟨by decide, ?_⟩, ⟨by decide, ?_⟩⟩
  · intro cs ce ws we h
    rcases cs with _ | a
    · rfl
    rcases ce with _ | b
    · rfl
    rcases ws with _ | c
    · rfl
    rcases we with _ | d
    · rfl
    simp at h
  · intro a b c d h
    simp only [_overlap_months]
    rw [if_pos h]
  · intro a b c d h
    simp only [_overlap_months]
    rw [if_neg (not_lt.mpr h), qDiv_eq, q30four_eq]
  · intro q m
    simp only [revCell, qMul_eq]
  · rw [show (100 : ℚ) * 1 = 100 by norm_num]
    decide
  · rw [show (100 : ℚ) * 0 = 0 by norm_num]
    decide

/-- Witness for C4 at concrete inputs, discharging each hypothesis. -/
theorem overlap_months_spec_w :
    _overlap_months Option.none (some 0) (some 0) (some 0) = 0 ∧
    _overlap_months (some 0) (some 5) (some 10) (some 20) = 0 ∧
    _overlap_months (some 0) (some 40) (some 10) (some 20) =
      ⌈((min 40 20 - max 0 10 + 1 : ℤ) : ℚ) / (30.4 : ℚ)⌉ ∧
    revCell (Value.num 100) 1 = .ok (Value.num (roundTo2 ((100 : ℚ) * ((1 : ℤ) : ℚ)))) :=
  ⟨overlap_months_spec.1 Option.none (some 0) (some 0) (some 0) (Or.inl rfl),
   overlap_months_spec.2.1 0 5 10 20 (by decide),
   overlap_months_spec.2.2.1 0 40 10 20 (by decide),
   overlap_months_spec.2.2.2.1 100 1⟩

/-- Claim C9: a filter whose stripped operator is none of the nine supported
names leaves the table unchanged (silent no-op), and a missing operator field
behaves exactly as equality. -/
theorem unknown_op_noop :
    (∀ (out : Table) (f : Filter) (schema : List String),
      ¬ opOrDefault f.op ∈ KNOWN_OPS → filterStep out f schema = .ok out) ∧
    (∀ (out : Table) (f : Filter) (schema : List String),
      f.op = Option.none →
        filterStep out f schema = filterStep out { f with op := some "==" } schema) := by
  constructor
  · intro out f schema h
    have hrows : ∀ (rows : List Row) (col : String) (colNum : Bool),
        filterRows rows f col colNum = .ok rows := by
      intro rows col colNum
      unfold filterRows
      split <;> simp_all [KNOWN_OPS]
    unfold filterStep
    split
    · rfl
    · split
      · rfl
      · show (filterRows out.rows f _ _) >>= _ = _
        rw [hrows]
        rfl
  · intro out f schema h
    obtain ⟨c, o, v⟩ := f
    simp only at h
    subst h
    rfl

/-- Witness for C9 at a concrete input: the operator `~~` is a no-op and a
missing operator equals `==`. -/
theorem unknown_op_noop_w :
    filterStep wTable { col := .str "churn", op := some "~~", value := .scalar (.num 5) }
      wTable.cols = .ok wTable ∧
    filterStep wTable { col := .str "churn", op := Option.none, value := .scalar (.num 1) }
        wTable.cols =
      filterStep wTable { col := .str "churn", op := some "==", value := .scalar (.num 1) }
        wTable.cols :=
  ⟨unknown_op_noop.1 wTable _ wTable.cols (by decide),
   unknown_op_noop.2 wTable { col := .str "churn", op := Option.none, value := .scalar (.num 1) }
     wTable.cols rfl⟩

/-- Claim C8: in the filter-sanitization pass, a reference that maps to the bare
name churn is re-mapped to churn_probability_percent exactly when its value
parses to a number strictly greater than 1; values parsing to at most 1, or not
parsing at all, keep the binary churn flag. -/
theorem churn_filter_disambiguation (schema : List String) (f : Filter) (nm : String)
    (hn : _as_col_name f.col = some nm)
    (hm : (aliasLookup (lowerStr nm)).getD nm = "churn")
    (hs : "churn" ∈ schema) (hp : "churn_probability_percent" ∈ schema) :
    (∀ n : ℚ, (parsePercentishF f.value).1 = some n → 1 < n →
      _fix_filters [f] schema =
        [{ col := .str "churn_probability_percent", op := some (opOrDefault f.op),
           value := f.value }]) ∧
    (∀ n : ℚ, (parsePercentishF f.value).1 = some n → ¬ 1 < n →
      _fix_filters [f] schema =
        [{ col := .str "churn", op := some (opOrDefault f.op), value := f.value }]) ∧
    ((parsePercentishF f.value).1 = Option.none →
      _fix_filters [f] schema =
        [{ col := .str "churn", op := some (opOrDefault f.op), value := f.value }]) := by
  have hrc : ∀ s : String, s ∈ schema → trimStr s = s → s ≠ "" →
      resolve_col (.str s) schema = some s := by
    intro s hmem htrim hne
    unfold resolve_col _as_col_name
    dsimp only
    rw [htrim]
    rw [if_neg hne, if_pos (Or.inl hmem)]
  have hstep : ∀ mapped : String, mapped ∈ schema → trimStr mapped = mapped → mapped ≠ "" →
      ((resolve_col (.str mapped) schema).orElse
        (fun _ => if mapped ∈ VIRTUAL_COLS then some mapped else Option.none)) = some mapped := by
    intro m hmem ht hne
    rw [hrc m hmem ht hne]
    rfl
  refine ⟨?_, ?_, ?_⟩
  · intro n hparse hgt
    simp only [_fix_filters, List.foldl]
    rw [hn]
    simp only [Option.getD_some]
    rw [hm, show lowerStr "churn" = "churn" from rfl, if_pos rfl, hparse]
    dsimp only
    rw [if_pos hgt]
    rw [hstep "churn_probability_percent" hp rfl (by decide)]
    rfl
  · intro n hparse hle
    simp only [_fix_filters, List.foldl]
    rw [hn]
    simp only [Option.getD_some]
    rw [hm, show lowerStr "churn" = "churn" from rfl, if_pos rfl, hparse]
    dsimp only
    rw [if_neg hle]
    rw [hstep "churn" hs rfl (by decide)]
    rfl
  · intro hparse
    simp only [_fix_filters, List.foldl]
    rw [hn]
    simp only [Option.getD_some]
    rw [hm, show lowerStr "churn" = "churn" from rfl, if_pos rfl, hparse]
    dsimp only
    rw [hstep "churn" hs rfl (by decide)]
    rfl

/-- Witness for C8: value 75 percent re-maps to the probability column, value 1
keeps the flag, and an unparseable value keeps the flag. -/
theorem churn_filter_disambiguation_w :
    _fix_filters [{ col := .str "churn", op := some ">", value := .scalar (.str "75%") }]
        ["churn", "churn_probability_percent"] =
      [{ col := .str "churn_probability_percent", op := some ">",
         value := .scalar (.str "75%") }] ∧
    _fix_filters [{ col := .str "churn", op := some "==", value := .scalar (.num 1) }]
        ["churn", "churn_probability_percent"] =
      [{ col := .str "churn", op := some "==", value := .scalar (.num 1) }] ∧
    _fix_filters [{ col := .str "churn", op := some "==", value := .scalar (.str "abc") }]
        ["churn", "churn_probability_percent"] =
      [{ col := .str "churn", op := some "==", value := .scalar (.str "abc") }] :=
  ⟨(churn_filter_disambiguation ["churn", "churn_probability_percent"]
      { col := .str "churn", op := some ">", value := .scalar (.str "75%") } "churn"
      (by decide) (by decide) (by decide) (by decide)).1 75 (by decide) (by norm_num),
   (churn_filter_disambiguation ["churn", "churn_probability_percent"]
      { col := .str "churn", op := some "==", value := .scalar (.num 1) } "churn"
      (by decide) (by decide) (by decide) (by decide)).2.1 1 (by decide) (by norm_num),
   (churn_filter_disambiguation ["churn", "churn_probability_percent"]
      { col := .str "churn", op := some "==", value := .scalar (.str "abc") } "churn"
      (by decide) (by decide) (by decide) (by decide)).2.2 (by decide)⟩

/-- Claim C3 counterexample: a row whose mrr value is missing yields a missing
(NaN) period_revenue_usd although all three source columns exist and
materialization triggered, so the revenue column is not non-null whenever the
source columns exist. -/
theorem revenue_nan_on_missing_mrr :
    SOURCE_COLS.all (fun c => decide (c ∈ nanTable.cols)) = true ∧
    colVals "period_revenue_usd" (tool_query nanTable { computed := true }) =
      some [Value.nan] ∧
    isNA Value.nan = true :=
  ⟨by decide, by decide, rfl⟩

/-- Claim C3 (amended): the derived revenue column is materialized exactly when
the descriptor sets computed or mentions period_revenue_usd in
select/aggregations/order_by AND the three source columns are present; a
window missing its start or end defaults to 2000-01-01 .. 2100-01-01; and on
every successfully materialized row the revenue cell is a number whenever the
row's mrr cell is a number (rows with missing mrr yield missing revenue, and
rows with missing contract dates make the stage raise). -/
theorem materialization_trigger (t : Table) (args : Args) :
    (∀ r, materializeStage t args = .ok r → "period_revenue_usd" ∉ t.cols →
      ("period_revenue_usd" ∈ r.cols ↔
        ((args.computed || wantsPeriodRev args) = true ∧ ∀ c ∈ SOURCE_COLS, c ∈ t.cols))) ∧
    (winStart args = Option.none ∨ winEnd args = Option.none →
      windowOf args = (daysFromCivil 2000 1 1, daysFromCivil 2100 1 1)) ∧
    (∀ r, materializeStage t args = .ok r →
      (args.computed || wantsPeriodRev args) = true → (∀ c ∈ SOURCE_COLS, c ∈ t.cols) →
      ∀ row ∈ r.rows, (∃ q, row "mrr_usd" = Value.num q) →
        ∃ q', row "period_revenue_usd" = Value.num q') := by
  refine ⟨?_, ?_, ?_⟩
  · intro r hm hnotin
    by_cases hcond : ((args.computed || wantsPeriodRev args) &&
        SOURCE_COLS.all (fun c => decide (c ∈ t.cols))) = true
    · unfold materializeStage at hm
      rw [if_pos hcond] at hm
      obtain ⟨rows, _, hm⟩ := ebind_ok hm
      cases hm
      constructor
      · intro _
        rw [Bool.and_eq_true] at hcond
        refine ⟨hcond.1, ?_⟩
        intro c hc
        have := (List.all_eq_true.mp hcond.2) c hc
        exact of_decide_eq_true this
      · intro _
        exact mem_appendCol_self _ _
    · unfold materializeStage at hm
      rw [if_neg hcond] at hm
      cases hm
      constructor
      · intro hmem
        exact absurd hmem hnotin
      · intro ⟨h1, h2⟩
        exact absurd (by
          rw [Bool.and_eq_true]
          exact ⟨h1, List.all_eq_true.mpr (fun c hc => decide_eq_true (h2 c hc))⟩) hcond
  · intro h
    unfold windowOf
    rcases hws : winStart args with _ | a
    · rfl
    · rcases hwe : winEnd args with _ | b
      · rfl
      · rcases h with h | h
        · rw [hws] at h
          cases h
        · rw [hwe] at h
          cases h
  · intro r hm htrig hsrc row hrow hmrr
    unfold materializeStage at hm
    rw [if_pos (by
      rw [Bool.and_eq_true]
      exact ⟨htrig, List.all_eq_true.mpr (fun c hc => decide_eq_true (hsrc c hc))⟩)] at hm
    obtain ⟨rows, hrows, hm⟩ := ebind_ok hm
    cases hm
    obtain ⟨orig, _, horig⟩ := mapM_ok_mem hrows row hrow
    unfold materializeRow at horig
    obtain ⟨cs, _, horig⟩ := ebind_ok horig
    obtain ⟨ce, _, horig⟩ := ebind_ok horig
    obtain ⟨rev, hrev, horig⟩ := ebind_ok horig
    cases horig
    obtain ⟨q, hq⟩ := hmrr
    rw [show (fun c =>
        if c = "period_revenue_usd" then rev
        else if c = "overlap_months" then
          Value.num ((_overlap_months cs ce (some (windowOf args).1)
            (some (windowOf args).2) : ℤ) : ℚ)
        else orig c) "mrr_usd" = orig "mrr_usd" from rfl] at hq
    rw [hq] at hrev
    simp only [revCell] at hrev
    cases hrev
    exact ⟨_, rfl⟩

/-- Witness for the amended C3 at a concrete input: materialization on the
normalized sales table with computed set adds the revenue column, the default
window applies, and the first row's revenue is a number because its mrr is. -/
theorem materialization_trigger_w :
    ("period_revenue_usd" ∈
        (tableOf (materializeStage (normalizeDates wTable) { computed := true })).cols ↔
      ((({ computed := true } : Args).computed || wantsPeriodRev { computed := true }) = true ∧
        ∀ c ∈ SOURCE_COLS, c ∈ (normalizeDates wTable).cols)) ∧
    windowOf { computed := true } = (daysFromCivil 2000 1 1, daysFromCivil 2100 1 1) ∧
    (∃ q', rowAt (tableOf (materializeStage (normalizeDates wTable) { computed := true })) 0
        "period_revenue_usd" = Value.num q') := by
  have h0 := materialization_trigger (normalizeDates wTable) ({ computed := true } : Args)
  refine ⟨h0.1 _ rfl (by decide), h0.2.1 (Or.inl rfl), ?_⟩
  refine h0.2.2 _ rfl (by decide) (by decide) (rowAt _ 0) ?_ ⟨100, by decide⟩
  unfold rowAt
  rw [List.getD_eq_getElem _ _ (by decide)]
  exact List.getElem_mem _

theorem hget_append_lt (h : Heap) (t : Table) (r : ℕ) (hr : r < h.length) :
    hget (h ++ [t]) r = hget h r := by
  unfold hget
  exact List.getD_append h [t] _ r hr

theorem hget_append_self (h : Heap) (t : Table) : hget (h ++ [t]) h.length = t := by
  unfold hget
  rw [List.getD_append_right h [t] _ h.length (Nat.le_refl _)]
  simp

theorem hget_set_ne (h : Heap) (s r : ℕ) (t : Table) (hne : r ≠ s) :
    hget (hset h s t) r = hget h r := by
  unfold hget hset
  simp only [List.getD_eq_getElem?_getD, List.getElem?_set_ne (Ne.symm hne)]

theorem hget_set_self (h : Heap) (s : ℕ) (t : Table) (hs : s < h.length) :
    hget (hset h s t) s = t := by
  unfold hget hset
  simp [List.getD_eq_getElem?_getD, List.getElem?_set_self, hs]

/-- Claim C7: under the reference semantics the source frame is never mutated:
after running a query on a heap, the frame the caller's reference points to is
unchanged, and when the query succeeds its result frame is exactly the pure
pipeline applied to the (unchanged) source frame. -/
theorem source_frame_preserved (S : Sorter) (h : Heap) (dfRef : ℕ) (args : Args)
    (hlt : dfRef < h.length) :
    hget (tool_query_heap S h dfRef args).1 dfRef = hget h dfRef ∧
    ∀ rR, (tool_query_heap S h dfRef args).2 = .ok rR →
      tool_query_with S (hget h dfRef) args =
        .ok (hget (tool_query_heap S h dfRef args).1 rR) := by
  have hne : dfRef ≠ h.length := Nat.ne_of_lt hlt
  unfold tool_query_heap
  dsimp only [halloc]
  rw [hget_append_self h (hget h dfRef)]
  have hlen1 : h.length < (h ++ [hget h dfRef]).length := by simp
  have hlen2 : h.length <
      (hset (h ++ [hget h dfRef]) h.length (normalizeDates (hget h dfRef))).length := by
    simp [hset]
  rw [hget_set_self _ _ _ hlen1]
  cases hmat : materializeStage (normalizeDates (hget h dfRef)) args with
  | error e =>
    refine ⟨?_, ?_⟩
    · rw [hget_set_ne _ _ _ _ hne, hget_append_lt _ _ _ hlt]
    · intro rR hrR
      cases hrR
  | ok m =>
    dsimp only
    rw [hget_set_self _ _ _ hlen2]
    have hlen3 : dfRef <
        (hset (hset (h ++ [hget h dfRef]) h.length (normalizeDates (hget h dfRef)))
          h.length m).length := by
      simp only [hset, List.length_set, List.length_append, List.length_singleton]
      omega
    cases hrest : (_apply_filters m args.filters m.cols >>= fun out2 =>
        projectOrAggregate args m.cols out2 >>= fun res =>
        limitStage (orderStage S res args.order_by) args.limit) with
    | error e =>
      refine ⟨?_, ?_⟩
      · rw [hget_set_ne _ _ _ _ hne, hget_set_ne _ _ _ _ hne,
          hget_append_lt _ _ _ hlt]
      · intro rR hrR
        cases hrR
    | ok t =>
      refine ⟨?_, ?_⟩
      · rw [hget_append_lt _ _ _ hlen3, hget_set_ne _ _ _ _ hne,
          hget_set_ne _ _ _ _ hne, hget_append_lt _ _ _ hlt]
      · intro rR hrR
        cases hrR
        rw [hget_append_self]
        unfold tool_query_with
        rw [hmat]
        exact hrest

/-- Witness for C7 at a concrete heap: querying the one-frame heap holding the
sales table leaves the frame at reference 0 untouched. -/
theorem source_frame_preserved_w :
    0 < ([wTable] : Heap).length ∧
    hget (tool_query_heap insortSorter [wTable] 0 {}).1 0 = hget [wTable] 0 :=
  ⟨by decide, (source_frame_preserved insortSorter [wTable] 0 {} (by decide)).1⟩

end SalesQA
